import Mathlib

/-!
Shallow embedding of the tebogen collection engine (Python package `tebogen`):
`utils.py`, `question.py`, `question_list.py`, `group.py`,
`question_group_list.py`, `validators.py`, `validator_factory.py` and
`ConfigController.py`.

Python's in-place mutation with exceptions is modelled by explicit state
passing: every mutating method of a structure `S` becomes a Lean function
`S → args → Except Err ret × S`, whose second component is the state at the
moment the method returns or raises.  A method that raises before mutating
returns the input state unchanged; a method that mutates and then raises
returns the partially mutated state, exactly as the Python object would be
left.  Integer indices are modelled as `Nat`: every Python call site in the
claims uses non-negative indices, and the source's `index < 0` guards are
kept verbatim (they are decidably false on `Nat`).
-/

deriving instance DecidableEq for Except

namespace Tebogen

/-- Exception outcomes of the engine.  Each constructor corresponds to one
family of `raise` sites in the source (the Python exception class together
with its message). -/
inductive Err
  | indexOutOfRange
  | questionAlreadyExists (variable_name : String)
  | groupAlreadyExists
  | questionListDuplicate
  | groupNotFound
  | questionNotFound
  | elementNotFound
  | boundaryReached
  | runtimeError
  | unexpectedKeywordArgument
  | notSubscriptable
  | notAQuestion
  | notAGroup
  | invalidIdentifier
  | reservedWord
  | validatorAlreadyExists (name : String)
  | cannotRemoveBuiltin (name : String)
  | validatorNotFound
  | keyError
  | parseError
  deriving DecidableEq, Repr

/-! ## utils.py -/

/-- Character class of Python's regex `\w` (word character), restricted to
ASCII: letters, digits and underscore.  The source pattern is Unicode-aware
(`re` on `str` without `re.ASCII`), so non-ASCII letters are also word
characters in Python; the model covers the ASCII fragment, which is the
domain of every claim below. -/
def pyWordChar (c : Char) : Bool :=
  ('A' ≤ c && c ≤ 'Z') || ('a' ≤ c && c ≤ 'z') || ('0' ≤ c && c ≤ '9') || c = '_'

/-- Character class of `[^\W\d]` (a word character that is not a digit),
the first character of the pattern in `is_valid_python_variable_name`. -/
def pyWordStart (c : Char) : Bool :=
  pyWordChar c && !('0' ≤ c && c ≤ '9')

/-- Recognizer for the tail of the pattern `^[^\W\d]\w*$`: a run of word
characters, optionally followed by a single final newline.  Python's `$`
matches at the end of the string or just before a trailing `'\n'`, so
`re.match` accepts one trailing newline. -/
def reMatchTail : List Char → Bool
  | [] => true
  | c :: rest => (pyWordChar c && reMatchTail rest) || (c = '\n' && rest.isEmpty)

/-- Recognizer for `re.match(r"^[^\W\d]\w*$", name)` on the ASCII fragment. -/
def pyRegexMatch (name : String) : Bool :=
  match name.data with
  | [] => false
  | c :: rest => pyWordStart c && reMatchTail rest

/-- Python reserved words as reported by `keyword.iskeyword`. -/
def pythonKeywords : List String :=
  ["False", "None", "True", "and", "as", "assert", "async", "await",
   "break", "class", "continue", "def", "del", "elif", "else", "except",
   "finally", "for", "from", "global", "if", "import", "in", "is",
   "lambda", "nonlocal", "not", "or", "pass", "raise", "return", "try",
   "while", "with", "yield"]

/-- Embedding of `utils.is_valid_python_variable_name`: raises `ValueError`
(modelled as `Err.invalidIdentifier`) when the regex does not match, raises
`ValueError` (`Err.reservedWord`) when the name is a Python keyword, and
returns `True` otherwise. -/
def is_valid_python_variable_name (name : String) : Except Err Bool :=
  if !pyRegexMatch name then .error .invalidIdentifier
  else if pythonKeywords.contains name then .error .reservedWord
  else .ok true

/-! ## validators.py — data part -/

/-- Embedding of `DateFormatEnum`. -/
inductive DateFormatEnum
  | dd_mm_yyyy | mm_dd_yyyy | yyyy_mm_dd | dd_mm_yy | mm_dd_yy | yy_mm_dd
  deriving DecidableEq, Repr

/-- String value of a `DateFormatEnum` member (its `.value`). -/
def DateFormatEnum.value : DateFormatEnum → String
  | .dd_mm_yyyy => "dd.mm.yyyy"
  | .mm_dd_yyyy => "mm.dd.yyyy"
  | .yyyy_mm_dd => "yyyy.mm.dd"
  | .dd_mm_yy => "dd.mm.yy"
  | .mm_dd_yy => "mm.dd.yy"
  | .yy_mm_dd => "yy.mm.dd"

/-- Lookup of `DateFormatEnum(s)`: the member whose value is `s`, if any. -/
def DateFormatEnum.ofValue : String → Option DateFormatEnum
  | "dd.mm.yyyy" => some .dd_mm_yyyy
  | "mm.dd.yyyy" => some .mm_dd_yyyy
  | "yyyy.mm.dd" => some .yyyy_mm_dd
  | "dd.mm.yy" => some .dd_mm_yy
  | "mm.dd.yy" => some .mm_dd_yy
  | "yy.mm.dd" => some .yy_mm_dd
  | _ => none

/-- Numeric payload of a validator parameter.  Python stores `int` or
`float` values here; floats are modelled as rationals. -/
inductive PyNum
  | int (i : Int)
  | float (q : Rat)
  deriving DecidableEq, Repr

/-- Embedding of the `Validator` class hierarchy of `validators.py`: the
five parameterised built-ins, the two parameterless built-ins, and the
user-defined kinds (`custom_validator(name)` instances together with plain
`Validator(name=...)` instances, both carrying only a name). -/
inductive Validator
  | integer (min_value max_value : Option PyNum)
  | float (min_value max_value : Option PyNum)
  | text (min_length max_length : Option PyNum)
  | date (date_format : DateFormatEnum)
  | email
  | phone
  | custom (cname : String)
  deriving DecidableEq, Repr

/-- Value of the `name` attribute of a validator instance. -/
def Validator.name : Validator → String
  | .integer _ _ => "integer_validator"
  | .float _ _ => "float_validator"
  | .text _ _ => "text_validator"
  | .date _ => "date_validator"
  | .email => "email_validator"
  | .phone => "phone_validator"
  | .custom n => n

/-! ## question.py and group.py — data part -/

/-- Embedding of `Question`: display name, variable name (key) and optional
validator reference. -/
structure Question where
  name : String
  variable_name : String
  validator : Option Validator
  deriving DecidableEq, Repr

/-- Embedding of `Question.__eq__`: two questions are equal when their
names match or their variable names match. -/
def Question.eq (a b : Question) : Bool :=
  a.name == b.name || a.variable_name == b.variable_name

/-- Embedding of `Group`: display name, variable name and the contained
`QuestionList` (modelled as the list of its questions). -/
structure Group where
  name : String
  variable_name : String
  questions : List Question
  deriving DecidableEq, Repr

/-- Embedding of `Group.__eq__`: same name or same variable name. -/
def Group.eq (a b : Group) : Bool :=
  a.name == b.name || a.variable_name == b.variable_name

/-! ## question_list.py

Methods of `QuestionList` act on the underlying `list[Question]`. -/

namespace QuestionList

/-- Embedding of `QuestionList.add`: reject when an equal question already
exists, append when `index` is `None`, otherwise bounds-check and insert. -/
def add (qs : List Question) (question : Question) (index : Option Nat) :
    Except Err Unit × List Question :=
  if qs.any fun q => Question.eq q question then
    (.error .questionListDuplicate, qs)
  else
    match index with
    | none => (.ok (), qs ++ [question])
    | some i =>
      if i < 0 || qs.length < i then (.error .indexOutOfRange, qs)
      else (.ok (), qs.insertIdx i question)

/-- Embedding of `QuestionList.pop`: bounds-check, then remove and return
the question at `index`. -/
def pop (qs : List Question) (index : Nat) :
    Except Err Question × List Question :=
  match qs[index]? with
  | none => (.error .indexOutOfRange, qs)
  | some q => (.ok q, qs.eraseIdx index)

/-- Embedding of `QuestionList.swap`: bounds-check both indices, then
exchange the two questions. -/
def swap (qs : List Question) (index1 index2 : Nat) :
    Except Err Unit × List Question :=
  match qs[index1]?, qs[index2]? with
  | some a, some b => (.ok (), (qs.set index1 b).set index2 a)
  | _, _ => (.error .indexOutOfRange, qs)

end QuestionList

/-! ## question_group_list.py

An element of the top-level list is a `Question | Group` union value; the
`QuestionGroupList` state is the underlying `list[Question | Group]`. -/

/-- One element of the top-level collection (`Question | Group`). -/
inductive QG
  | question (q : Question)
  | group (g : Group)
  deriving DecidableEq, Repr

/-- Test used to model `isinstance(element, Question)`. -/
def QG.isQuestion : QG → Bool
  | .question _ => true
  | .group _ => false

/-- Test used to model `isinstance(element, Group)`. -/
def QG.isGroup : QG → Bool
  | .question _ => false
  | .group _ => true

namespace QuestionGroupList

/-- Embedding of `QuestionGroupList.add`: per-kind duplicate check among
top-level elements of the same kind, then append or bounds-checked insert. -/
def add (s : List QG) (value : QG) (index : Option Nat) :
    Except Err Unit × List QG :=
  match value with
  | .question q =>
    if s.any fun e => e.isQuestion && (match e with
        | .question q' => Question.eq q' q
        | .group _ => false) then
      (.error (.questionAlreadyExists q.variable_name), s)
    else
      match index with
      | none => (.ok (), s ++ [value])
      | some i =>
        if i < 0 || s.length < i then (.error .indexOutOfRange, s)
        else (.ok (), s.insertIdx i value)
  | .group g =>
    if s.any fun e => e.isGroup && (match e with
        | .question _ => false
        | .group g' => Group.eq g' g) then
      (.error .groupAlreadyExists, s)
    else
      match index with
      | none => (.ok (), s ++ [value])
      | some i =>
        if i < 0 || s.length < i then (.error .indexOutOfRange, s)
        else (.ok (), s.insertIdx i value)

/-- Embedding of `QuestionGroupList.pop`. -/
def pop (s : List QG) (index : Nat) : Except Err QG × List QG :=
  match s[index]? with
  | none => (.error .indexOutOfRange, s)
  | some e => (.ok e, s.eraseIdx index)

/-- Embedding of `QuestionGroupList.swap`. -/
def swap (s : List QG) (index1 index2 : Nat) : Except Err Unit × List QG :=
  match s[index1]?, s[index2]? with
  | some a, some b => (.ok (), (s.set index1 b).set index2 a)
  | _, _ => (.error .indexOutOfRange, s)

/-- Embedding of `QuestionGroupList.add_question_to_group`: bounds-check the
group index, require a `Group` there, then delegate to `QuestionList.add` of
that group (the group is mutated in place on success; a failing inner add
leaves it untouched). -/
def add_question_to_group (s : List QG) (question : Question)
    (group_index : Nat) (index_in_group : Option Nat) :
    Except Err Unit × List QG :=
  match s[group_index]? with
  | none => (.error .indexOutOfRange, s)
  | some (.question _) => (.error .groupNotFound, s)
  | some (.group g) =>
    match QuestionList.add g.questions question index_in_group with
    | (.error e, _) => (.error e, s)
    | (.ok _, qs) =>
      (.ok (), s.set group_index (.group ⟨g.name, g.variable_name, qs⟩))

/-- Loop body of `ungroup_all_questions`: `n` is the number of remaining
iterations (Python's `range(len(group.questions))` is evaluated once), `i`
the current `question_index`.  Each iteration pops the group's head and
re-adds it at `group_index + i + 1`; an exception aborts the loop with the
state mutated so far.  The impossible re-read of a non-group (the group
stays at `group_index` because every insertion is strictly after it) is
mapped to `Err.runtimeError`. -/
def ungroupAllLoop (group_index : Nat) :
    Nat → Nat → List QG → Except Err Unit × List QG
  | 0, _, s => (.ok (), s)
  | Nat.succ m, i, s =>
    match s[group_index]? with
    | some (.group g) =>
      match QuestionList.pop g.questions 0 with
      | (.error e, _) => (.error e, s)
      | (.ok q, qs) =>
        let s1 := s.set group_index (.group ⟨g.name, g.variable_name, qs⟩)
        match add s1 (.question q) (some (group_index + i + 1)) with
        | (.error e, s2) => (.error e, s2)
        | (.ok _, s2) => ungroupAllLoop group_index m (i + 1) s2
    | _ => (.error .runtimeError, s)

/-- Embedding of `QuestionGroupList.ungroup_all_questions`. -/
def ungroup_all_questions (s : List QG) (group_index : Nat) :
    Except Err Unit × List QG :=
  match s[group_index]? with
  | none => (.error .indexOutOfRange, s)
  | some (.question _) => (.error .groupNotFound, s)
  | some (.group g) => ungroupAllLoop group_index g.questions.length 0 s

/-- Embedding of `QuestionGroupList.ungroup_single_question`: pop the
question at `question_index` out of the group at `group_index`, then re-add
it at top level after (`after = true`) or before the group.  When the
re-insertion raises, the question has already left the group (the source
mutates in place), so the returned state is the popped one. -/
def ungroup_single_question (s : List QG) (group_index question_index : Nat)
    (after : Bool) : Except Err Unit × List QG :=
  match s[group_index]? with
  | none => (.error .indexOutOfRange, s)
  | some (.question _) => (.error .groupNotFound, s)
  | some (.group g) =>
    if g.questions.length ≤ question_index then (.error .indexOutOfRange, s)
    else
      match QuestionList.pop g.questions question_index with
      | (.error e, _) => (.error e, s)
      | (.ok q, qs) =>
        let s1 := s.set group_index (.group ⟨g.name, g.variable_name, qs⟩)
        add s1 (.question q) (some (if after then group_index + 1 else group_index))

/-- Embedding of `QuestionGroupList.move_question_to_group`: validate both
indices and kinds, pop the question, locate the target group at
`group_index - 1` when `question_index < group_index` (the source's
`shift = -1`) and at `group_index` otherwise, and insert into it.  When the
inner `QuestionList.add` raises, the question has already been popped, so
the returned state is the popped list. -/
def move_question_to_group (s : List QG) (question_index group_index : Nat)
    (index_in_group : Option Nat) : Except Err Unit × List QG :=
  if s.length ≤ group_index then (.error .indexOutOfRange, s)
  else match s[group_index]? with
  | none => (.error .indexOutOfRange, s)
  | some (.question _) => (.error .groupNotFound, s)
  | some (.group _) =>
    if s.length ≤ question_index then (.error .indexOutOfRange, s)
    else match s[question_index]? with
    | none => (.error .indexOutOfRange, s)
    | some (.group _) => (.error .questionNotFound, s)
    | some (.question _) =>
      match pop s question_index with
      | (.error e, s') => (.error e, s')
      | (.ok popped, s1) =>
        match popped with
        | .group _ => (.error .runtimeError, s1)
        | .question q =>
          let target := if question_index < group_index then group_index - 1
                        else group_index
          match s1[target]? with
          | some (.group g) =>
            match QuestionList.add g.questions q index_in_group with
            | (.error e, _) => (.error e, s1)
            | (.ok _, qs) =>
              (.ok (), s1.set target (.group ⟨g.name, g.variable_name, qs⟩))
          | _ => (.error .runtimeError, s1)

/-- Embedding of `QuestionGroupList.has_element` (the boolean component of
the returned pair; every caller projects it with `[0]`). -/
def has_element (s : List QG) (variable_name : String) : Bool :=
  s.any fun e =>
    match e with
    | .question q => q.variable_name == variable_name
    | .group g =>
      g.variable_name == variable_name
        || g.questions.any fun q => q.variable_name == variable_name

/-- Worker for `find_element`: scan the top-level elements in order keeping
the current index. -/
def findElementAux (variable_name : String) :
    List QG → Nat → Except Err (Nat × Option Nat)
  | [], _ => .error .elementNotFound
  | e :: rest, idx =>
    match e with
    | .question q =>
      if q.variable_name == variable_name then .ok (idx, none)
      else findElementAux variable_name rest (idx + 1)
    | .group g =>
      if g.variable_name == variable_name then .ok (idx, none)
      else
        match g.questions.findIdx? fun q => q.variable_name == variable_name with
        | some sub => .ok (idx, some sub)
        | none => findElementAux variable_name rest (idx + 1)

/-- Embedding of `QuestionGroupList.find_element`: first structural match,
as `(idx, None)` for a top-level element and `(idx, sub_idx)` for a
question nested in a group. -/
def find_element (s : List QG) (variable_name : String) :
    Except Err (Nat × Option Nat) :=
  findElementAux variable_name s 0

/-- Embedding of `QuestionGroupList.move_down`.  The impossible fall-through
branches of the source (an element that is neither `Question` nor `Group`,
or a vanished neighbour) are mapped to the exceptions the source would reach
there (`BoundaryReachedException` for the in-range fall-through inside the
question branch, `RuntimeError` for the final fall-through). -/
def move_down (s : List QG) (variable_name : String) :
    Except Err Int × List QG :=
  match find_element s variable_name with
  | .error e => (.error e, s)
  | .ok (idx, none) =>
    match s[idx]? with
    | some (.group _) =>
      if idx < s.length - 1 then
        match swap s idx (idx + 1) with
        | (.error e, s1) => (.error e, s1)
        | (.ok _, s1) =>
          match s1[idx]? with
          | some (.group g2) => (.ok (g2.questions.length : Int), s1)
          | _ => (.ok 0, s1)
      else (.error .boundaryReached, s)
    | some (.question _) =>
      if idx < s.length - 1 then
        match s[idx + 1]? with
        | some (.question _) =>
          match swap s idx (idx + 1) with
          | (.error e, s1) => (.error e, s1)
          | (.ok _, s1) => (.ok 0, s1)
        | some (.group _) =>
          match move_question_to_group s idx (idx + 1) (some 0) with
          | (.error e, s1) => (.error e, s1)
          | (.ok _, s1) => (.ok 0, s1)
        | none => (.error .boundaryReached, s)
      else (.error .boundaryReached, s)
    | none => (.error .runtimeError, s)
  | .ok (idx, some sub) =>
    match s[idx]? with
    | some (.group g) =>
      if sub < g.questions.length - 1 then
        match QuestionList.swap g.questions sub (sub + 1) with
        | (.error e, _) => (.error e, s)
        | (.ok _, qs) =>
          (.ok 0, s.set idx (.group ⟨g.name, g.variable_name, qs⟩))
      else
        match ungroup_single_question s idx sub true with
        | (.error e, s1) => (.error e, s1)
        | (.ok _, s1) => (.ok (-1), s1)
    | _ => (.error .runtimeError, s)

/-- Embedding of `QuestionGroupList.move_up` (the mirror of `move_down`:
indices decremented, entering the previous group appends at its end and
returns `1`, exiting re-inserts before the group and returns `0`). -/
def move_up (s : List QG) (variable_name : String) :
    Except Err Int × List QG :=
  match find_element s variable_name with
  | .error e => (.error e, s)
  | .ok (idx, none) =>
    match s[idx]? with
    | some (.group _) =>
      if idx > 0 then
        match swap s idx (idx - 1) with
        | (.error e, s1) => (.error e, s1)
        | (.ok _, s1) =>
          match s1[idx]? with
          | some (.group g2) => (.ok (-(g2.questions.length : Int)), s1)
          | _ => (.ok 0, s1)
      else (.error .boundaryReached, s)
    | some (.question _) =>
      if idx > 0 then
        match s[idx - 1]? with
        | some (.question _) =>
          match swap s idx (idx - 1) with
          | (.error e, s1) => (.error e, s1)
          | (.ok _, s1) => (.ok 0, s1)
        | some (.group _) =>
          match move_question_to_group s idx (idx - 1) none with
          | (.error e, s1) => (.error e, s1)
          | (.ok _, s1) => (.ok 1, s1)
        | none => (.error .runtimeError, s)
      else (.error .boundaryReached, s)
    | none => (.error .runtimeError, s)
  | .ok (idx, some sub) =>
    match s[idx]? with
    | some (.group g) =>
      if sub > 0 then
        match QuestionList.swap g.questions sub (sub - 1) with
        | (.error e, _) => (.error e, s)
        | (.ok _, qs) =>
          (.ok 0, s.set idx (.group ⟨g.name, g.variable_name, qs⟩))
      else
        match ungroup_single_question s idx sub false with
        | (.error e, s1) => (.error e, s1)
        | (.ok _, s1) => (.ok 0, s1)
    | _ => (.error .runtimeError, s)

/-- Embedding of `QuestionGroupList.delete_question`.  For a question nested
in a group, the source calls `ungroup_single_question(idx, sub_idx,
before=True)`, but that method has no parameter named `before` (its keyword
parameter is `after`), so the call itself raises `TypeError` (unexpected
keyword argument) before any mutation; the subsequent `pop` is never
reached. -/
def delete_question (s : List QG) (variable_name : String) :
    Except Err Unit × List QG :=
  match find_element s variable_name with
  | .error e => (.error e, s)
  | .ok (_, some _) => (.error .unexpectedKeywordArgument, s)
  | .ok (idx, none) =>
    match s[idx]? with
    | some (.question _) => (.ok (), s.eraseIdx idx)
    | _ => (.error .notAQuestion, s)

/-- Embedding of `QuestionGroupList.delete_group`: a nested match or a
top-level question is rejected; a top-level group is removed wholesale. -/
def delete_group (s : List QG) (variable_name : String) :
    Except Err Unit × List QG :=
  match find_element s variable_name with
  | .error e => (.error e, s)
  | .ok (_, some _) => (.error .notAGroup, s)
  | .ok (idx, none) =>
    match s[idx]? with
    | some (.group _) => (.ok (), s.eraseIdx idx)
    | _ => (.error .notAGroup, s)

/-- Embedding of `QuestionGroupList.update_question`.  The element is
located by the given question's current `variable_name`.  When
`find_element` returns a nested position, the source immediately executes
`self._questions_and_groups[idx][sub_idx]` — but `Group` defines no
`__getitem__`, so subscripting the group raises `TypeError` ('Group'
object is not subscriptable) before any check or mutation: every update of
a nested question crashes.  For a top-level element, when the new variable
name differs, `has_element` is consulted first (duplicate ⇒
`QuestionAlreadyExistsException`) and the `variable_name` setter then
validates the identifier before assigning; `name` and `validator` are then
overwritten unconditionally and the element written back.  When
`find_element` returns a top-level *group* with the requested variable
name, the source renames that group through the same path (the stray
`validator` attribute it sets on the group object is not part of the group
model). -/
def update_question (s : List QG) (question : Question)
    (new_name new_variable_name : String) (new_validator : Option Validator) :
    Except Err Unit × List QG :=
  match find_element s question.variable_name with
  | .error e => (.error e, s)
  | .ok (_, some _) => (.error .notSubscriptable, s)
  | .ok (idx, none) =>
    match s[idx]? with
    | some (.question q0) =>
      if new_variable_name ≠ q0.variable_name then
        if has_element s new_variable_name then
          (.error (.questionAlreadyExists new_variable_name), s)
        else
          match is_valid_python_variable_name new_variable_name with
          | .error e => (.error e, s)
          | .ok _ =>
            (.ok (), s.set idx (.question ⟨new_name, new_variable_name, new_validator⟩))
      else
        (.ok (), s.set idx (.question ⟨new_name, q0.variable_name, new_validator⟩))
    | some (.group g0) =>
      if new_variable_name ≠ g0.variable_name then
        if has_element s new_variable_name then
          (.error (.questionAlreadyExists new_variable_name), s)
        else
          match is_valid_python_variable_name new_variable_name with
          | .error e => (.error e, s)
          | .ok _ =>
            (.ok (), s.set idx (.group ⟨new_name, new_variable_name, g0.questions⟩))
      else
        (.ok (), s.set idx (.group ⟨new_name, g0.variable_name, g0.questions⟩))
    | none => (.error .runtimeError, s)

end QuestionGroupList

/-! ## Serialized dictionary shapes

`to_dict` produces plain Python dicts; the two shapes that occur (validator
dicts and question/group node dicts) are modelled as structures whose
`Option` fields stand for possibly-absent keys (`dict.get` returns `None`
both for a missing key and for a stored `None`, and the serializers below
never store `None` under a key they also omit, so the two cases can be
conflated). -/

/-- Dictionary produced by `Validator.to_dict` and consumed by
`ValidatorFactory.create`. -/
structure VDict where
  name : Option String
  min_value : Option PyNum
  max_value : Option PyNum
  min_length : Option PyNum
  max_length : Option PyNum
  date_format : Option String
  deriving DecidableEq, Repr

/-- The empty dict `{}` (all keys absent), which is falsy in Python. -/
def emptyVDict : VDict := ⟨none, none, none, none, none, none⟩

/-- Dictionary produced by `Question.to_dict` / `Group.to_dict` and consumed
by the `from_dict` constructors.  The presence of the `questions` key is the
discriminator between the two node kinds. -/
structure PyDict where
  name : Option String
  variable_name : Option String
  validator : Option VDict
  questions : Option (List PyDict)

/-- Truthiness of `dict.get(key)` for a string-valued key: present and
non-empty. -/
def truthyS : Option String → Bool
  | none => false
  | some s => s ≠ ""

/-- Embedding of `Validator.to_dict` (and its overrides in every
subclass). -/
def Validator.to_dict : Validator → VDict
  | .integer a b => ⟨some "integer_validator", a, b, none, none, none⟩
  | .float a b => ⟨some "float_validator", a, b, none, none, none⟩
  | .text a b => ⟨some "text_validator", none, none, a, b, none⟩
  | .date fmt => ⟨some "date_validator", none, none, none, none, some fmt.value⟩
  | .email => ⟨some "email_validator", none, none, none, none, none⟩
  | .phone => ⟨some "phone_validator", none, none, none, none, none⟩
  | .custom n => ⟨some n, none, none, none, none, none⟩

/-- Embedding of `ValidatorFactory.create`: dispatch on the four recognized
built-in names; any other (truthy) name yields a plain `Validator` carrying
only that name, which the model identifies with a custom kind.  Note that
`email_validator` and `phone_validator` fall into this default branch. -/
def ValidatorFactory.create (data : VDict) : Except Err Validator :=
  if !truthyS data.name then .error .parseError
  else match data.name with
  | none => .error .parseError
  | some n =>
    if n = "integer_validator" then .ok (.integer data.min_value data.max_value)
    else if n = "float_validator" then .ok (.float data.min_value data.max_value)
    else if n = "text_validator" then .ok (.text data.min_length data.max_length)
    else if n = "date_validator" then
      match data.date_format with
      | some v =>
        match DateFormatEnum.ofValue v with
        | some fmt => .ok (.date fmt)
        | none => .error .parseError
      | none => .error .parseError
    else .ok (.custom n)

/-- Embedding of `Question.to_dict`: name, variable name, and the validator
dict only when a validator is attached. -/
def Question.to_dict (q : Question) : PyDict :=
  ⟨some q.name, some q.variable_name, q.validator.map Validator.to_dict, none⟩

/-- Embedding of `Question.from_dict`: build the validator first (an empty
validator dict is falsy and yields `None`), then require truthy `name` and
`variable_name`, then run the `Question` constructor, whose
`variable_name` setter validates the identifier. -/
def Question.from_dict (data : PyDict) : Except Err Question :=
  let pv : Except Err (Option Validator) :=
    match data.validator with
    | none => .ok none
    | some vd =>
      if vd = emptyVDict then .ok none
      else match ValidatorFactory.create vd with
        | .error e => .error e
        | .ok v => .ok (some v)
  match pv with
  | .error e => .error e
  | .ok validator =>
    if !truthyS data.name then .error .parseError
    else if !truthyS data.variable_name then .error .parseError
    else match data.name, data.variable_name with
    | some nm, some vn =>
      match is_valid_python_variable_name vn with
      | .error e => .error e
      | .ok _ => .ok ⟨nm, vn, validator⟩
    | _, _ => .error .parseError

/-- Embedding of `Group.to_dict`. -/
def Group.to_dict (g : Group) : PyDict :=
  ⟨some g.name, some g.variable_name, none, some (g.questions.map Question.to_dict)⟩

/-- Embedding of `Group.from_dict`: parse every question dict first (a
missing `questions` key is a `KeyError`), then require truthy `name` and
`variable_name`.  The `Group` constructor assigns the fields directly (no
identifier validation of the group's variable name). -/
def Group.from_dict (data : PyDict) : Except Err Group :=
  match data.questions with
  | none => .error .keyError
  | some qds =>
    match qds.mapM Question.from_dict with
    | .error e => .error e
    | .ok qs =>
      if !truthyS data.name then .error .parseError
      else if !truthyS data.variable_name then .error .parseError
      else match data.name, data.variable_name with
      | some nm, some vn => .ok ⟨nm, vn, qs⟩
      | _, _ => .error .parseError

/-- Embedding of `QuestionGroupList.to_dict`. -/
def QuestionGroupList.to_dict (s : List QG) : List PyDict :=
  s.map fun e =>
    match e with
    | .question q => q.to_dict
    | .group g => g.to_dict

/-- Loop body of `QuestionGroupList.from_dict`: a dict with a `questions`
key is parsed as a group (its errors propagate untouched); any failure of
`Question.from_dict` is caught by the bare `except` and re-raised as a
`ValueError` (modelled as `Err.parseError`). -/
def QuestionGroupList.fromDictItem (item : PyDict) : Except Err QG :=
  if item.questions.isSome then
    match Group.from_dict item with
    | .error e => .error e
    | .ok g => .ok (QG.group g)
  else
    match Question.from_dict item with
    | .error _ => .error .parseError
    | .ok q => .ok (QG.question q)

/-- Embedding of `QuestionGroupList.from_dict`. -/
def QuestionGroupList.from_dict (data : List PyDict) : Except Err (List QG) :=
  data.mapM QuestionGroupList.fromDictItem

/-! ## validators.py — the `ValidatorsList` registry

Registry entries are validator classes; every registry operation consults
only their `name` attribute, so the registry state is modelled as the
ordered list of those names. -/

/-- Names of the built-in validators (`builtin_validators`). -/
def builtin_validators : List String :=
  ["integer_validator", "float_validator", "text_validator",
   "date_validator", "email_validator", "phone_validator"]

namespace ValidatorsList

/-- Removal of the first entry with the given name (Python's
`list.remove` applied to the first matching class). -/
def removeFirstByName : List String → String → List String
  | [], _ => []
  | v :: rest, n => if v == n then rest else removeFirstByName rest n |>.cons v

/-- In-place rename of the first entry with the given old name. -/
def renameFirst : List String → String → String → List String
  | [], _, _ => []
  | v :: rest, old, new =>
    if v == old then new :: rest else renameFirst rest old new |>.cons v

/-- Embedding of `ValidatorsList.add`: duplicate-name check against every
entry (built-in or custom), identifier validation, then append of a new
custom kind. -/
def add (vl : List String) (name : String) : Except Err Unit × List String :=
  if vl.contains name then (.error (.validatorAlreadyExists name), vl)
  else match is_valid_python_variable_name name with
    | .error e => (.error e, vl)
    | .ok _ => (.ok (), vl ++ [name])

/-- Embedding of `ValidatorsList.remove`: built-in names are always
rejected; otherwise the first entry with the given name is removed, and a
missing name is an error. -/
def remove (vl : List String) (name : String) : Except Err Unit × List String :=
  if builtin_validators.contains name then
    (.error (.cannotRemoveBuiltin name), vl)
  else if vl.contains name then (.ok (), removeFirstByName vl name)
  else (.error .validatorNotFound, vl)

/-- Embedding of `ValidatorsList.change_name`: reject when any entry
already carries `new_name`, validate `new_name`, then rename the first
entry carrying `old_name` (no built-in check on this path). -/
def change_name (vl : List String) (old_name new_name : String) :
    Except Err Unit × List String :=
  if vl.contains new_name then (.error (.validatorAlreadyExists new_name), vl)
  else match is_valid_python_variable_name new_name with
    | .error e => (.error e, vl)
    | .ok _ =>
      if vl.contains old_name then (.ok (), renameFirst vl old_name new_name)
      else (.error .validatorNotFound, vl)

end ValidatorsList

/-- Initial registry contents (`validators_list`): exactly the built-in
kinds, in order. -/
def validators_list : List String := builtin_validators

/-! ## ConfigController.py

The controller composes one collection and one registry.  Its write-through
persistence (`save_to_file`) is an I/O effect outside the state model; the
flags and file name play no role in the claims and are omitted. -/

/-- Controller state: the collection and the registry. -/
structure ConfigController where
  questions_and_groups : List QG
  validators : List String
  deriving DecidableEq, Repr

/-- Clearing step of the cascade in `ConfigController.remove_validator`:
`question.validator == name` compares the validator's name with the string
(`Validator.__eq__`), and a `None` validator never compares equal. -/
def clearValidatorRef (name : String) (q : Question) : Question :=
  match q.validator with
  | some v => if v.name == name then ⟨q.name, q.variable_name, none⟩ else q
  | none => q

/-- Embedding of `ConfigController.remove_validator`: perform the registry
removal (its errors propagate with no cascade), then walk every top-level
question and every question of every group, clearing the validator
references equal to `name`. -/
def ConfigController.remove_validator (cfg : ConfigController) (name : String) :
    Except Err Unit × ConfigController :=
  match ValidatorsList.remove cfg.validators name with
  | (.error e, _) => (.error e, cfg)
  | (.ok _, vl) =>
    (.ok (), ⟨cfg.questions_and_groups.map fun e =>
      match e with
      | .question q => .question (clearValidatorRef name q)
      | .group g =>
        .group ⟨g.name, g.variable_name, g.questions.map (clearValidatorRef name)⟩,
      vl⟩)

/-! ## Specification-side definitions

Definitions in this section formalize wording of the specification (not the
source); the theorems below compare them with the embedded code. -/

/-- Spec-side character class: the first character of the spec's identifier
language, `[A-Za-z_]`. -/
def specIdentStart (c : Char) : Bool :=
  ('A' ≤ c && c ≤ 'Z') || ('a' ≤ c && c ≤ 'z') || c = '_'

/-- Spec-side character class `[A-Za-z0-9_]`. -/
def specIdentChar (c : Char) : Bool :=
  specIdentStart c || ('0' ≤ c && c ≤ '9')

/-- Spec-side identifier language of section 4.1: the spec's regular
expression `[A-Za-z_][A-Za-z0-9_]*`, matched against the whole string. -/
def specIdentMatch (s : String) : Bool :=
  match s.data with
  | [] => false
  | c :: rest => specIdentStart c && rest.all specIdentChar

/-! ## Claim C2 — Scenarios A and B -/

/-- C2: on the collection [Entry Q1/q1, Container G/g [Entry Q2/q2]],
move_down of q1 moves the entry into G at position 0 and returns shift 0;
move_up of q1 on the result moves it back out before G and returns shift 0,
restoring the original collection. -/
theorem claim_C2_move_down_up_inverse :
    QuestionGroupList.move_down
        [QG.question ⟨"Q1", "q1", none⟩, QG.group ⟨"G", "g", [⟨"Q2", "q2", none⟩]⟩] "q1"
      = (.ok 0, [QG.group ⟨"G", "g", [⟨"Q1", "q1", none⟩, ⟨"Q2", "q2", none⟩]⟩])
  ∧ QuestionGroupList.move_up
        [QG.group ⟨"G", "g", [⟨"Q1", "q1", none⟩, ⟨"Q2", "q2", none⟩]⟩] "q1"
      = (.ok 0, [QG.question ⟨"Q1", "q1", none⟩, QG.group ⟨"G", "g", [⟨"Q2", "q2", none⟩]⟩]) := by
  decide

/-! ## Claim C4 — deleting a nested entry -/

/-- C4: deleting a nested question crashes instead of extracting and
popping it.  The call `ungroup_single_question(idx, sub_idx, before=True)`
in `delete_question` raises `TypeError` (no parameter named `before`), so
on the collection [Container G/g [Entry Q/q]] the deletion of q fails with
that error and the collection is left unchanged — the claimed
extract-then-pop behaviour is never reached. -/
theorem claim_C4_delete_nested_raises_type_error :
    QuestionGroupList.delete_question [QG.group ⟨"G", "g", [⟨"Q", "q", none⟩]⟩] "q"
      = (.error .unexpectedKeywordArgument, [QG.group ⟨"G", "g", [⟨"Q", "q", none⟩]⟩]) := by
  decide

/-! ## Claim C1 — atomicity -/

/-- C1 counterexample: a move_question_to_group call whose inner insertion
fails (the moved entry is name-or-key equal to an entry of the target
container) leaves the collection mutated: the entry has been popped from
the top level and is lost, so the final state differs from the initial
one even though the call raised. -/
theorem claim_C1_counterexample :
    QuestionGroupList.move_question_to_group
        [QG.question ⟨"B", "x", none⟩, QG.group ⟨"G", "g", [⟨"B", "b", none⟩]⟩] 0 1 none
      = (.error .questionListDuplicate, [QG.group ⟨"G", "g", [⟨"B", "b", none⟩]⟩])
  ∧ [QG.group ⟨"G", "g", [⟨"B", "b", none⟩]⟩]
      ≠ [QG.question ⟨"B", "x", none⟩, QG.group ⟨"G", "g", [⟨"B", "b", none⟩]⟩] := by
  decide

/-! ## Claim C9 — immutability of built-in registry names -/

/-- Renaming the first occurrence of a name changes the list whenever the
old name is present and the new one is not. -/
theorem renameFirst_ne (old_name new_name : String) :
    ∀ vl : List String, old_name ∈ vl → new_name ∉ vl →
      ValidatorsList.renameFirst vl old_name new_name ≠ vl := by
  intro vl
  induction vl with
  | nil => intro h; cases h
  | cons v rest ih =>
    intro hold hnew
    by_cases hv : v = old_name
    · subst hv
      simp only [ValidatorsList.renameFirst, beq_self_eq_true, if_pos]
      intro hcontra
      have : new_name = v := by
        have := congrArg (fun l => l.headI) hcontra
        simpa using this
      exact hnew (this ▸ List.mem_cons_self _ _)
    · have hbeq : (v == old_name) = false := by simpa using hv
      simp only [ValidatorsList.renameFirst, hbeq, Bool.false_eq_true, if_neg,
        not_false_iff]
      intro hcontra
      have hold' : old_name ∈ rest := by
        rcases List.mem_cons.mp hold with h | h
        · exact absurd h.symm hv
        · exact h
      have hnew' : new_name ∉ rest := fun h => hnew (List.mem_cons_of_mem _ h)
      have := List.cons.injEq v _ v rest ▸ hcontra
      exact ih hold' hnew' (by
        have := congrArg List.tail hcontra
        simpa using this)

/-- C9 counterexample: change_name performs no built-in check, so renaming
the built-in tag integer_validator on the initial registry succeeds and
changes the registry, instead of raising BuiltinImmutableError and leaving
it unchanged. -/
theorem claim_C9_counterexample :
    ValidatorsList.change_name validators_list "integer_validator" "my_int"
      = (.ok (), ["my_int", "float_validator", "text_validator",
                  "date_validator", "email_validator", "phone_validator"])
  ∧ ["my_int", "float_validator", "text_validator",
     "date_validator", "email_validator", "phone_validator"] ≠ validators_list := by
  decide

/-- C9 amended: remove always rejects a built-in name and leaves the
registry unchanged, but change_name has no built-in protection: whenever
the old name is present and the new name is a valid, unused identifier, the
rename succeeds and the registry changes (so built-in names are immutable
under remove but not under change_name). -/
theorem claim_C9_amended :
    (∀ (vl : List String) (name : String), name ∈ builtin_validators →
        ValidatorsList.remove vl name = (.error (.cannotRemoveBuiltin name), vl))
  ∧ (∀ (vl : List String) (old_name new_name : String),
        new_name ∉ vl → is_valid_python_variable_name new_name = .ok true →
        old_name ∈ vl →
        ValidatorsList.change_name vl old_name new_name =
            (.ok (), ValidatorsList.renameFirst vl old_name new_name)
          ∧ ValidatorsList.renameFirst vl old_name new_name ≠ vl) := by
  constructor
  · intro vl name h
    simp [ValidatorsList.remove, h]
  · intro vl old_name new_name hnew hvalid hold
    refine ⟨?_, renameFirst_ne old_name new_name vl hold hnew⟩
    simp [ValidatorsList.change_name, hnew, hold, hvalid]

/-- C9 witness: the amended theorem applied to the initial registry and the
rename of float_validator to shoe_size. -/
theorem claim_C9_witness :
    ("shoe_size" ∉ validators_list
      ∧ is_valid_python_variable_name "shoe_size" = .ok true
      ∧ "float_validator" ∈ validators_list)
  ∧ ValidatorsList.change_name validators_list "float_validator" "shoe_size" =
      (.ok (), ValidatorsList.renameFirst validators_list "float_validator" "shoe_size") :=
  ⟨⟨by decide, by decide, by decide⟩,
    (claim_C9_amended.2 validators_list "float_validator" "shoe_size"
      (by decide) (by decide) (by decide)).1⟩

/-! ## Claim C7 — duplicate add is rejected without mutation -/

/-- C7: adding an item whose name or key collides with an existing
same-kind item is rejected and the structure is returned unchanged, for
top-level questions (QuestionAlreadyExistsException), top-level groups
(ValueError) and the entries of a container (ValueError); the name-or-key
equality makes a pure display-name collision sufficient. -/
theorem claim_C7_duplicate_add_rejected :
    (∀ (s : List QG) (q : Question) (index : Option Nat) (q' : Question),
        QG.question q' ∈ s → Question.eq q' q = true →
        QuestionGroupList.add s (.question q) index =
          (.error (.questionAlreadyExists q.variable_name), s))
  ∧ (∀ (s : List QG) (g : Group) (index : Option Nat) (g' : Group),
        QG.group g' ∈ s → Group.eq g' g = true →
        QuestionGroupList.add s (.group g) index = (.error .groupAlreadyExists, s))
  ∧ (∀ (qs : List Question) (q : Question) (index : Option Nat) (q' : Question),
        q' ∈ qs → Question.eq q' q = true →
        QuestionList.add qs q index = (.error .questionListDuplicate, qs)) := by
  refine ⟨?_, ?_, ?_⟩
  · intro s q index q' hmem heq
    have hany : (s.any fun e => e.isQuestion && (match e with
        | .question q'' => Question.eq q'' q
        | .group _ => false)) = true :=
      List.any_eq_true.mpr ⟨.question q', hmem, by simp [QG.isQuestion, heq]⟩
    simp [QuestionGroupList.add, hany]
  · intro s g index g' hmem heq
    have hany : (s.any fun e => e.isGroup && (match e with
        | .question _ => false
        | .group g'' => Group.eq g'' g)) = true :=
      List.any_eq_true.mpr ⟨.group g', hmem, by simp [QG.isGroup, heq]⟩
    simp [QuestionGroupList.add, hany]
  · intro qs q index q' hmem heq
    have hany : (qs.any fun x => Question.eq x q) = true :=
      List.any_eq_true.mpr ⟨q', hmem, heq⟩
    simp [QuestionList.add, hany]

/-- C7 witness: an entry whose display name N equals an existing entry's
name is rejected even though the keys k1 and k2 differ, and the collection
is unchanged. -/
theorem claim_C7_witness :
    (QG.question ⟨"N", "k1", none⟩ ∈ [QG.question ⟨"N", "k1", none⟩]
      ∧ Question.eq ⟨"N", "k1", none⟩ ⟨"N", "k2", none⟩ = true)
  ∧ QuestionGroupList.add [QG.question ⟨"N", "k1", none⟩]
        (.question ⟨"N", "k2", none⟩) none
      = (.error (.questionAlreadyExists "k2"), [QG.question ⟨"N", "k1", none⟩]) :=
  ⟨⟨by decide, by decide⟩,
    claim_C7_duplicate_add_rejected.1 [QG.question ⟨"N", "k1", none⟩]
      ⟨"N", "k2", none⟩ none ⟨"N", "k1", none⟩ (by decide) (by decide)⟩

/-! ## Claim C5 — invariant I1 -/

/-- C5 counterexample: adding a top-level entry whose key q equals the key
of an entry nested inside the container G succeeds (the entry is appended)
instead of being rejected, so the cross-level key-distinctness part of
invariant I1 is not enforced by add. -/
theorem claim_C5_counterexample :
    QuestionGroupList.add [QG.group ⟨"G", "g", [⟨"Q", "q", none⟩]⟩]
        (.question ⟨"Q2", "q", none⟩) none
      = (.ok (), [QG.group ⟨"G", "g", [⟨"Q", "q", none⟩]⟩,
                  QG.question ⟨"Q2", "q", none⟩]) := by
  decide

/-! ## Claim C3 — moveEntryToContainer index arithmetic -/

/-- C3 counterexample: with an entry at index 0 and a container at index 1,
move_question_to_group with in-container position 5 does not insert the
entry (the position is out of range for the container's list): it raises
IndexError — and the entry has even been removed — so the claimed
unconditional remove-and-insert behaviour fails. -/
theorem claim_C3_counterexample :
    QuestionGroupList.move_question_to_group
        [QG.question ⟨"A", "a", none⟩, QG.group ⟨"G", "g", []⟩] 0 1 (some 5)
      = (.error .indexOutOfRange, [QG.group ⟨"G", "g", []⟩]) := by
  decide

/-! ## Claim C6 — the identifier validator -/

/-- C6 counterexample: the string consisting of the keyword if followed by
a newline is outside the spec language [A-Za-z_][A-Za-z0-9_]* (and is not
itself a keyword), yet the validator accepts it, because Python's $
matches just before a trailing newline. -/
theorem claim_C6_counterexample :
    specIdentMatch "if\n" = false
  ∧ is_valid_python_variable_name "if\n" = .ok true := by
  decide

/-- Coincidence of Python's word-start class (ASCII fragment of `[^\W\d]`)
with the spec's class `[A-Za-z_]`. -/
theorem pyWordStart_eq_specIdentStart : pyWordStart = specIdentStart := by
  funext c
  rw [Bool.eq_iff_iff]
  simp only [pyWordStart, pyWordChar, specIdentStart, Bool.or_eq_true,
    Bool.and_eq_true, Bool.not_eq_true', Bool.and_eq_false_iff,
    decide_eq_true_eq, decide_eq_false_iff_not]
  constructor
  · rintro ⟨(((h | h) | h) | h), hnd⟩
    · exact Or.inl (Or.inl h)
    · exact Or.inl (Or.inr h)
    · rcases hnd with hnd | hnd
      · exact absurd h.1 hnd
      · exact absurd h.2 hnd
    · exact Or.inr h
  · rintro ((h | h) | h)
    · exact ⟨Or.inl (Or.inl (Or.inl h)),
        Or.inr fun h9 => absurd (le_trans h.1 h9) (by decide)⟩
    · exact ⟨Or.inl (Or.inl (Or.inr h)),
        Or.inr fun h9 => absurd (le_trans h.1 h9) (by decide)⟩
    · subst h
      exact ⟨Or.inr rfl, Or.inr (by decide)⟩

/-- Coincidence of Python's word class (ASCII fragment of `\w`) with the
spec's class `[A-Za-z0-9_]`. -/
theorem pyWordChar_eq_specIdentChar : pyWordChar = specIdentChar := by
  funext c
  rw [Bool.eq_iff_iff]
  simp only [pyWordChar, specIdentChar, specIdentStart, Bool.or_eq_true,
    Bool.and_eq_true, decide_eq_true_eq]
  tauto

/-- Language of the tail recognizer: a run of word characters optionally
followed by one final newline. -/
theorem reMatchTail_iff (cs : List Char) :
    reMatchTail cs = true ↔
      cs.all pyWordChar = true
        ∨ ∃ w, cs = w ++ ['\n'] ∧ w.all pyWordChar = true := by
  induction cs with
  | nil =>
    simp [reMatchTail]
  | cons c rest ih =>
    simp only [reMatchTail, Bool.or_eq_true, Bool.and_eq_true,
      decide_eq_true_eq, List.isEmpty_iff, ih, List.all_cons]
    constructor
    · rintro (⟨hc, hrest | ⟨w, hw, hall⟩⟩ | ⟨hc, hrest⟩)
      · exact Or.inl ⟨hc, hrest⟩
      · exact Or.inr ⟨c :: w, by simp [hw], by simp [hc, hall]⟩
      · subst hc; subst hrest
        exact Or.inr ⟨[], by simp, by simp⟩
    · rintro (⟨hc, hrest⟩ | ⟨w, hw, hall⟩)
      · exact Or.inl ⟨hc, Or.inl hrest⟩
      · cases w with
        | nil =>
          simp only [List.nil_append, List.cons.injEq] at hw
          exact Or.inr ⟨hw.1, hw.2⟩
        | cons d w' =>
          simp only [List.cons_append, List.cons.injEq] at hw
          simp only [List.all_cons, Bool.and_eq_true] at hall
          exact Or.inl ⟨hw.1 ▸ hall.1, Or.inr ⟨w', hw.2, hall.2⟩⟩

/-- Characterization of the embedded regex match: the spec language with
an optional single trailing newline. -/
theorem pyRegexMatch_iff (s : String) :
    pyRegexMatch s = true ↔
      (specIdentMatch s = true
        ∨ ∃ w : String, s = w ++ "\n" ∧ specIdentMatch w = true) := by
  rcases s with ⟨cs⟩
  cases cs with
  | nil =>
    constructor
    · intro h; exact absurd h (by decide)
    · rintro (h | ⟨w, hw, _⟩)
      · exact absurd h (by decide)
      · have hw' := congrArg String.data hw
        rw [String.data_append] at hw'
        simp at hw'
  | cons c rest =>
    unfold pyRegexMatch specIdentMatch
    simp only [Bool.and_eq_true, reMatchTail_iff, pyWordStart_eq_specIdentStart,
      pyWordChar_eq_specIdentChar]
    constructor
    · rintro ⟨hstart, hrest | ⟨w, hw, hall⟩⟩
      · exact Or.inl ⟨hstart, hrest⟩
      · refine Or.inr ⟨String.mk (c :: w), ?_, ?_⟩
        · apply String.ext
          rw [String.data_append]
          simpa using hw
        · show (specIdentStart c && w.all specIdentChar) = true
          simp [hstart, hall]
    · rintro (⟨hstart, hrest⟩ | ⟨⟨wl⟩, hw, hmatch⟩)
      · exact ⟨hstart, Or.inl hrest⟩
      · have hw' := congrArg String.data hw
        rw [String.data_append] at hw'
        simp only [String.data] at hw'
        cases wl with
        | nil =>
          exact absurd hmatch (by decide)
        | cons d w' =>
          simp only [List.cons_append, List.cons.injEq] at hw'
          simp only [specIdentMatch, Bool.and_eq_true] at hmatch
          obtain ⟨hc, hr⟩ := hw'
          subst hc
          exact ⟨hmatch.1, Or.inr ⟨w', hr, hmatch.2⟩⟩

/-- C6 amended: over ASCII strings the validator accepts exactly the spec
language [A-Za-z_][A-Za-z0-9_]* extended with one optional trailing
newline (a quirk of Python's $ anchor), minus the reserved words; every
string outside that extended language gets the invalid-identifier error
and every reserved word in it gets the reserved-word error.  (The source
regex is additionally Unicode-aware: non-ASCII letters, outside this
model, are also accepted as word characters.) -/
theorem claim_C6_amended : ∀ s : String,
    (is_valid_python_variable_name s = .ok true ↔
      ((specIdentMatch s = true
          ∨ ∃ w : String, s = w ++ "\n" ∧ specIdentMatch w = true)
        ∧ s ∉ pythonKeywords))
  ∧ (is_valid_python_variable_name s = .error .invalidIdentifier ↔
      ¬ (specIdentMatch s = true
          ∨ ∃ w : String, s = w ++ "\n" ∧ specIdentMatch w = true))
  ∧ (is_valid_python_variable_name s = .error .reservedWord ↔
      ((specIdentMatch s = true
          ∨ ∃ w : String, s = w ++ "\n" ∧ specIdentMatch w = true)
        ∧ s ∈ pythonKeywords)) := by
  intro s
  unfold is_valid_python_variable_name
  rw [← pyRegexMatch_iff]
  by_cases hm : pyRegexMatch s = true
  · by_cases hk : s ∈ pythonKeywords
    · have hc : pythonKeywords.contains s = true := by simpa using hk
      simp [hm, hc, hk]
    · have hc : pythonKeywords.contains s = false := by
        simp only [← Bool.not_eq_true]
        simpa using hk
      simp [hm, hc, hk]
  · have hm' : pyRegexMatch s = false := by
      simpa using hm
    simp [hm', hm]

/-! ## Claim C1 — amended atomicity -/

/-- Atomicity of add: an error outcome returns the input state. -/
theorem add_error_state (s : List QG) (v : QG) (i : Option Nat) (e : Err)
    (s' : List QG) (h : QuestionGroupList.add s v i = (.error e, s')) : s' = s := by
  cases v <;> simp only [QuestionGroupList.add] at h <;>
    repeat' split at h
  all_goals
    injection h with h1 h2
  all_goals
    first
    | exact h2.symm
    | exact Except.noConfusion h1

/-- Atomicity of pop. -/
theorem pop_error_state (s : List QG) (i : Nat) (e : Err) (s' : List QG)
    (r : Except Err QG) (h : QuestionGroupList.pop s i = (r, s')) (he : r = .error e) :
    s' = s := by
  subst he
  simp only [QuestionGroupList.pop] at h
  split at h
  all_goals injection h with h1 h2
  · exact h2.symm
  · exact Except.noConfusion h1

/-- Atomicity of swap. -/
theorem swap_error_state (s : List QG) (i j : Nat) (e : Err) (s' : List QG)
    (h : QuestionGroupList.swap s i j = (.error e, s')) : s' = s := by
  simp only [QuestionGroupList.swap] at h
  split at h
  all_goals injection h with h1 h2
  · exact Except.noConfusion h1
  · exact h2.symm

/-- Atomicity of add_question_to_group. -/
theorem add_question_to_group_error_state (s : List QG) (q : Question)
    (gi : Nat) (ig : Option Nat) (e : Err) (s' : List QG)
    (h : QuestionGroupList.add_question_to_group s q gi ig = (.error e, s')) :
    s' = s := by
  simp only [QuestionGroupList.add_question_to_group] at h
  repeat' split at h
  all_goals injection h with h1 h2
  all_goals
    first
    | exact h2.symm
    | exact Except.noConfusion h1

/-- Atomicity of update_question. -/
theorem update_question_error_state (s : List QG) (q : Question)
    (nn nvn : String) (nv : Option Validator) (e : Err) (s' : List QG)
    (h : QuestionGroupList.update_question s q nn nvn nv = (.error e, s')) :
    s' = s := by
  simp only [QuestionGroupList.update_question] at h
  repeat' split at h
  all_goals injection h with h1 h2
  all_goals
    first
    | exact h2.symm
    | exact Except.noConfusion h1

/-- Atomicity of delete_question (the nested case raises before any
mutation because the erroneous keyword argument aborts the call itself). -/
theorem delete_question_error_state (s : List QG) (vn : String) (e : Err)
    (s' : List QG) (h : QuestionGroupList.delete_question s vn = (.error e, s')) :
    s' = s := by
  simp only [QuestionGroupList.delete_question] at h
  repeat' split at h
  all_goals injection h with h1 h2
  all_goals
    first
    | exact h2.symm
    | exact Except.noConfusion h1

/-- Atomicity of delete_group. -/
theorem delete_group_error_state (s : List QG) (vn : String) (e : Err)
    (s' : List QG) (h : QuestionGroupList.delete_group s vn = (.error e, s')) :
    s' = s := by
  simp only [QuestionGroupList.delete_group] at h
  repeat' split at h
  all_goals injection h with h1 h2
  all_goals
    first
    | exact h2.symm
    | exact Except.noConfusion h1

/-- Atomicity of the registry add. -/
theorem validators_add_error_state (vl : List String) (n : String) (e : Err)
    (vl' : List String) (h : ValidatorsList.add vl n = (.error e, vl')) :
    vl' = vl := by
  simp only [ValidatorsList.add] at h
  repeat' split at h
  all_goals injection h with h1 h2
  all_goals
    first
    | exact h2.symm
    | exact Except.noConfusion h1

/-- Atomicity of the registry remove. -/
theorem validators_remove_error_state (vl : List String) (n : String) (e : Err)
    (vl' : List String) (h : ValidatorsList.remove vl n = (.error e, vl')) :
    vl' = vl := by
  simp only [ValidatorsList.remove] at h
  repeat' split at h
  all_goals injection h with h1 h2
  all_goals
    first
    | exact h2.symm
    | exact Except.noConfusion h1

/-- Atomicity of the registry change_name. -/
theorem validators_change_name_error_state (vl : List String) (o n : String)
    (e : Err) (vl' : List String)
    (h : ValidatorsList.change_name vl o n = (.error e, vl')) :
    vl' = vl := by
  simp only [ValidatorsList.change_name] at h
  repeat' split at h
  all_goals injection h with h1 h2
  all_goals
    first
    | exact h2.symm
    | exact Except.noConfusion h1

/-- Index-shift rule of the cross-container move: after erasing position
i, the element originally at position j ≠ i is found at j - 1 exactly when
i < j and at j otherwise. -/
theorem getElem?_eraseIdx_shift {α : Type} (l : List α) (i j : Nat) (hne : i ≠ j) :
    (l.eraseIdx i)[if i < j then j - 1 else j]? = l[j]? := by
  by_cases hlt : i < j
  · rw [if_pos hlt, List.getElem?_eraseIdx, if_neg (by omega)]
    have h1 : j - 1 + 1 = j := by omega
    rw [h1]
  · rw [if_neg hlt, List.getElem?_eraseIdx, if_pos (by omega)]

/-- Non-atomicity witness lemma: when the inner insertion of
move_question_to_group fails, the question has already been popped, so the
call returns the inner error together with the collection minus the
question. -/
theorem move_question_to_group_inner_fail (s : List QG) (qi gi : Nat)
    (pos : Option Nat) (q : Question) (g : Group) (e : Err)
    (hq : s[qi]? = some (.question q)) (hg : s[gi]? = some (.group g))
    (hfail : QuestionList.add g.questions q pos = (.error e, g.questions)) :
    QuestionGroupList.move_question_to_group s qi gi pos
      = (.error e, s.eraseIdx qi) := by
  have hgi : gi < s.length := (List.getElem?_eq_some_iff.mp hg).1
  have hqi : qi < s.length := (List.getElem?_eq_some_iff.mp hq).1
  have hne : qi ≠ gi := by
    intro hcontra
    subst hcontra
    rw [hq] at hg
    simp at hg
  have htarget : (s.eraseIdx qi)[if qi < gi then gi - 1 else gi]?
      = some (.group g) := (getElem?_eraseIdx_shift s qi gi hne).trans hg
  simp only [QuestionGroupList.move_question_to_group, QuestionGroupList.pop,
    if_neg (not_le.mpr hgi), if_neg (not_le.mpr hqi), hq, hg, htarget, hfail]

/-- C1 amended: add, pop, swap, add_question_to_group, update_question,
delete_question, delete_group and the three registry operations raise
before mutating any state (an error outcome returns the input state
unchanged); but move_question_to_group is not atomic: whenever its inner
insertion into the target container fails (duplicate entry or out-of-range
position), the call returns that error with the collection already missing
the popped entry. -/
theorem claim_C1_amended :
    (∀ (s : List QG) (v : QG) (i : Option Nat) (e : Err) (s' : List QG),
        QuestionGroupList.add s v i = (.error e, s') → s' = s)
  ∧ (∀ (s : List QG) (i : Nat) (e : Err) (s' : List QG),
        QuestionGroupList.pop s i = (.error e, s') → s' = s)
  ∧ (∀ (s : List QG) (i j : Nat) (e : Err) (s' : List QG),
        QuestionGroupList.swap s i j = (.error e, s') → s' = s)
  ∧ (∀ (s : List QG) (q : Question) (gi : Nat) (ig : Option Nat) (e : Err)
        (s' : List QG),
        QuestionGroupList.add_question_to_group s q gi ig = (.error e, s') → s' = s)
  ∧ (∀ (s : List QG) (q : Question) (nn nvn : String) (nv : Option Validator)
        (e : Err) (s' : List QG),
        QuestionGroupList.update_question s q nn nvn nv = (.error e, s') → s' = s)
  ∧ (∀ (s : List QG) (vn : String) (e : Err) (s' : List QG),
        QuestionGroupList.delete_question s vn = (.error e, s') → s' = s)
  ∧ (∀ (s : List QG) (vn : String) (e : Err) (s' : List QG),
        QuestionGroupList.delete_group s vn = (.error e, s') → s' = s)
  ∧ (∀ (vl : List String) (n : String) (e : Err) (vl' : List String),
        ValidatorsList.add vl n = (.error e, vl') → vl' = vl)
  ∧ (∀ (vl : List String) (n : String) (e : Err) (vl' : List String),
        ValidatorsList.remove vl n = (.error e, vl') → vl' = vl)
  ∧ (∀ (vl : List String) (o n : String) (e : Err) (vl' : List String),
        ValidatorsList.change_name vl o n = (.error e, vl') → vl' = vl)
  ∧ (∀ (s : List QG) (qi gi : Nat) (pos : Option Nat) (q : Question) (g : Group)
        (e : Err),
        s[qi]? = some (.question q) → s[gi]? = some (.group g) →
        QuestionList.add g.questions q pos = (.error e, g.questions) →
        QuestionGroupList.move_question_to_group s qi gi pos
          = (.error e, s.eraseIdx qi)) :=
  ⟨add_error_state,
   fun s i e s' h => pop_error_state s i e s' (.error e) h rfl,
   swap_error_state,
   add_question_to_group_error_state,
   update_question_error_state,
   delete_question_error_state,
   delete_group_error_state,
   validators_add_error_state,
   validators_remove_error_state,
   validators_change_name_error_state,
   move_question_to_group_inner_fail⟩

/-- C1 witness: the amended theorem's last conjunct applied to a concrete
collection in which the moved entry collides with an entry of the target
container: the failed move returns the collection with the entry already
removed. -/
theorem claim_C1_witness :
    ([QG.question ⟨"C", "y", none⟩, QG.group ⟨"H", "h", [⟨"C", "c", none⟩]⟩][0]?
        = some (.question ⟨"C", "y", none⟩)
      ∧ [QG.question ⟨"C", "y", none⟩, QG.group ⟨"H", "h", [⟨"C", "c", none⟩]⟩][1]?
        = some (.group ⟨"H", "h", [⟨"C", "c", none⟩]⟩)
      ∧ QuestionList.add [⟨"C", "c", none⟩] ⟨"C", "y", none⟩ none
        = (.error .questionListDuplicate, [⟨"C", "c", none⟩]))
  ∧ QuestionGroupList.move_question_to_group
      [QG.question ⟨"C", "y", none⟩, QG.group ⟨"H", "h", [⟨"C", "c", none⟩]⟩] 0 1 none
      = (.error .questionListDuplicate,
         [QG.question ⟨"C", "y", none⟩,
          QG.group ⟨"H", "h", [⟨"C", "c", none⟩]⟩].eraseIdx 0) :=
  ⟨⟨by decide, by decide, by decide⟩,
    claim_C1_amended.2.2.2.2.2.2.2.2.2.2
      [QG.question ⟨"C", "y", none⟩, QG.group ⟨"H", "h", [⟨"C", "c", none⟩]⟩]
      0 1 none ⟨"C", "y", none⟩ ⟨"H", "h", [⟨"C", "c", none⟩]⟩
      .questionListDuplicate (by decide) (by decide) (by decide)⟩

/-- C3 amended: when the element at question_index is a top-level question,
the element at group_index is a group, and the inner insertion is accepted
(no name-or-key duplicate in the target container and, when given, an
in-range position), move_question_to_group removes the question and inserts
it into the container that was originally at group_index, locating that
container at group_index - 1 exactly when question_index < group_index and
at group_index otherwise; all other top-level elements keep their relative
order (the result is the erased list with only the target slot rewritten). -/
theorem claim_C3_amended (s : List QG) (qi gi : Nat) (pos : Option Nat)
    (q : Question) (g : Group)
    (hq : s[qi]? = some (.question q)) (hg : s[gi]? = some (.group g))
    (hnodup : ∀ q' ∈ g.questions, Question.eq q' q = false)
    (hpos : ∀ p, pos = some p → p ≤ g.questions.length) :
    (s.eraseIdx qi)[if qi < gi then gi - 1 else gi]? = some (.group g)
  ∧ QuestionGroupList.move_question_to_group s qi gi pos
      = (.ok (), (s.eraseIdx qi).set (if qi < gi then gi - 1 else gi)
          (.group ⟨g.name, g.variable_name,
            match pos with
            | none => g.questions ++ [q]
            | some p => g.questions.insertIdx p q⟩)) := by
  have hgi : gi < s.length := (List.getElem?_eq_some_iff.mp hg).1
  have hqi : qi < s.length := (List.getElem?_eq_some_iff.mp hq).1
  have hne : qi ≠ gi := by
    intro hcontra
    subst hcontra
    rw [hq] at hg
    simp at hg
  have htarget : (s.eraseIdx qi)[if qi < gi then gi - 1 else gi]?
      = some (.group g) := (getElem?_eraseIdx_shift s qi gi hne).trans hg
  have hany : (g.questions.any fun q' => Question.eq q' q) = false := by
    rw [← Bool.not_eq_true, List.any_eq_true]
    rintro ⟨x, hx, hex⟩
    rw [hnodup x hx] at hex
    exact Bool.false_ne_true hex
  have hadd : QuestionList.add g.questions q pos =
      (.ok (), match pos with
               | none => g.questions ++ [q]
               | some p => g.questions.insertIdx p q) := by
    cases pos with
    | none => simp [QuestionList.add, hany]
    | some p =>
      have hple : ¬ (g.questions.length < p) := not_lt.mpr (hpos p rfl)
      simp [QuestionList.add, hany, hple]
  refine ⟨htarget, ?_⟩
  simp only [QuestionGroupList.move_question_to_group, QuestionGroupList.pop,
    if_neg (not_le.mpr hgi), if_neg (not_le.mpr hqi), hq, hg, htarget, hadd]

/-- C3 witness: the amended theorem applied to the collection
[Entry A/a, Container G/g [Entry B/b]] with the default position: the
entry is appended to the container found at index 0 after the removal. -/
theorem claim_C3_witness :
    ([QG.question ⟨"A", "a", none⟩, QG.group ⟨"G", "g", [⟨"B", "b", none⟩]⟩][0]?
        = some (.question ⟨"A", "a", none⟩)
      ∧ [QG.question ⟨"A", "a", none⟩, QG.group ⟨"G", "g", [⟨"B", "b", none⟩]⟩][1]?
        = some (.group ⟨"G", "g", [⟨"B", "b", none⟩]⟩)
      ∧ (∀ q' ∈ [(⟨"B", "b", none⟩ : Question)],
          Question.eq q' ⟨"A", "a", none⟩ = false))
  ∧ QuestionGroupList.move_question_to_group
      [QG.question ⟨"A", "a", none⟩, QG.group ⟨"G", "g", [⟨"B", "b", none⟩]⟩]
      0 1 none
      = (.ok (),
         ([QG.question ⟨"A", "a", none⟩,
           QG.group ⟨"G", "g", [⟨"B", "b", none⟩]⟩].eraseIdx 0).set 0
           (.group ⟨"G", "g", [⟨"B", "b", none⟩, ⟨"A", "a", none⟩]⟩)) :=
  ⟨⟨by decide, by decide, by decide⟩,
    (claim_C3_amended
      [QG.question ⟨"A", "a", none⟩, QG.group ⟨"G", "g", [⟨"B", "b", none⟩]⟩]
      0 1 none ⟨"A", "a", none⟩ ⟨"G", "g", [⟨"B", "b", none⟩]⟩
      (by decide) (by decide) (by decide) (fun p hp => nomatch hp)).2⟩

/-! ## Claim C5 — machinery for the uniqueness invariants

Specification-side formalizations: the relation that holds between two
top-level elements when they are distinct under the name-or-key rule
restricted to same-kind pairs, the per-container entry distinctness, and
the global key (variable-name) distinctness used by has_element. -/

/-- Spec-side: two top-level elements of the same kind are not name-or-key
equal (cross-kind pairs are unconstrained, as in the source's add). -/
def qgDistinct : QG → QG → Prop
  | .question x, .question y => Question.eq x y = false
  | .group x, .group y => Group.eq x y = false
  | _, _ => True

/-- Spec-side: a list of questions is pairwise distinct under name-or-key
equality. -/
def DistinctQ (qs : List Question) : Prop :=
  qs.Pairwise fun a b => Question.eq a b = false

/-- Spec-side weakened invariant I1′: top-level same-kind elements pairwise
distinct, and the entries of every container pairwise distinct. -/
def SameKindDistinct (s : List QG) : Prop :=
  s.Pairwise qgDistinct ∧ ∀ g : Group, QG.group g ∈ s → DistinctQ g.questions

/-- Variable names contributed by one element: a question contributes its
key; a group contributes its key and the keys of its entries. -/
def elemVarNames : QG → List String
  | .question q => [q.variable_name]
  | .group g => g.variable_name :: g.questions.map Question.variable_name

/-- Spec-side: every variable name appearing in the collection, top-level
and nested, in order. -/
def allVarNames (s : List QG) : List String :=
  (s.map elemVarNames).flatten

/-- Spec-side global key-distinctness: all variable names of the
collection (questions, groups, nested questions) are pairwise distinct. -/
def KeyDistinct (s : List QG) : Prop := (allVarNames s).Nodup

/-- Name-or-key inequality of questions is symmetric. -/
theorem question_eq_false_symm {a b : Question} (h : Question.eq a b = false) :
    Question.eq b a = false := by
  simp only [Question.eq, Bool.or_eq_false_iff, beq_eq_false_iff_ne, ne_eq] at h ⊢
  exact ⟨fun hh => h.1 hh.symm, fun hh => h.2 hh.symm⟩

/-- Name-or-key inequality of groups is symmetric. -/
theorem group_eq_false_symm {a b : Group} (h : Group.eq a b = false) :
    Group.eq b a = false := by
  simp only [Group.eq, Bool.or_eq_false_iff, beq_eq_false_iff_ne, ne_eq] at h ⊢
  exact ⟨fun hh => h.1 hh.symm, fun hh => h.2 hh.symm⟩

/-- Same-kind distinctness is a symmetric relation. -/
theorem qgDistinct_symm : ∀ {a b : QG}, qgDistinct a b → qgDistinct b a := by
  intro a b h
  cases a <;> cases b <;> simp only [qgDistinct] at h ⊢
  · exact question_eq_false_symm h
  · exact group_eq_false_symm h

/-- Rewriting a container's entry list does not affect same-kind
distinctness with other elements. -/
theorem qgDistinct_group_congr (x : QG) (g : Group) (qs : List Question) :
    qgDistinct x (.group ⟨g.name, g.variable_name, qs⟩) = qgDistinct x (.group g) := by
  cases x <;> rfl

/-- Mirror of qgDistinct_group_congr on the left. -/
theorem qgDistinct_group_congr_left (x : QG) (g : Group) (qs : List Question) :
    qgDistinct (.group ⟨g.name, g.variable_name, qs⟩) x = qgDistinct (.group g) x := by
  cases x <;> rfl

/-- Same-kind distinctness transfers along permutations. -/
theorem SameKindDistinct_perm {s t : List QG} (hp : s.Perm t) :
    SameKindDistinct s ↔ SameKindDistinct t := by
  unfold SameKindDistinct
  rw [hp.pairwise_iff fun h => qgDistinct_symm h]
  constructor
  · rintro ⟨h1, h2⟩
    exact ⟨h1, fun g hg => h2 g (hp.mem_iff.mpr hg)⟩
  · rintro ⟨h1, h2⟩
    exact ⟨h1, fun g hg => h2 g (hp.mem_iff.mp hg)⟩

/-- A false any means the predicate is false on every member. -/
theorem any_false_forall {α : Type} {p : α → Bool} {l : List α}
    (h : l.any p = false) : ∀ x ∈ l, p x = false := by
  intro x hx
  rw [← Bool.not_eq_true]
  intro hpx
  rw [List.any_eq_true.mpr ⟨x, hx, hpx⟩] at h
  exact Bool.noConfusion h

/-- Decomposition of a list at a valid index. -/
theorem list_eq_take_cons_drop {α : Type} {l : List α} {i : Nat} {a : α}
    (h : l[i]? = some a) : l = l.take i ++ a :: l.drop (i + 1) := by
  obtain ⟨hi, hget⟩ := List.getElem?_eq_some_iff.mp h
  conv_lhs => rw [← List.take_append_drop i l]
  congr 1
  rw [List.drop_eq_getElem_cons hi, hget]

/-- Decomposition of set at a valid index. -/
theorem set_eq_take_cons_drop {α : Type} {l : List α} {i : Nat} {a b : α}
    (h : l[i]? = some a) : l.set i b = l.take i ++ b :: l.drop (i + 1) := by
  obtain ⟨hi, _⟩ := List.getElem?_eq_some_iff.mp h
  rw [List.set_eq_take_append_cons_drop, if_pos hi]

/-- Characterization of a successful question add: no name-or-key equal
top-level question existed, and the result is a permutation of the new
question consed onto the old list. -/
theorem add_question_ok (s : List QG) (q : Question) (i : Option Nat)
    (s' : List QG) (h : QuestionGroupList.add s (.question q) i = (.ok (), s')) :
    (∀ q' : Question, QG.question q' ∈ s → Question.eq q' q = false)
      ∧ s'.Perm (QG.question q :: s) := by
  simp only [QuestionGroupList.add] at h
  split at h
  · exact absurd h (by simp)
  · next hguard =>
    have hguard' := Bool.eq_false_iff.mpr hguard
    refine ⟨?_, ?_⟩
    · intro q' hq'
      have := any_false_forall hguard' (QG.question q') hq'
      simpa [QG.isQuestion] using this
    · split at h
      · injection h with h1 h2
        rw [← h2]
        exact List.perm_append_singleton _ _
      · split at h
        · exact absurd h (by simp)
        · next i0 hbound =>
          injection h with h1 h2
          rw [← h2]
          apply List.perm_insertIdx
          simp only [decide_eq_true_eq, Bool.or_eq_true, not_or, not_lt] at hbound
          exact hbound.2

/-- Characterization of a successful group add. -/
theorem add_group_ok (s : List QG) (g : Group) (i : Option Nat)
    (s' : List QG) (h : QuestionGroupList.add s (.group g) i = (.ok (), s')) :
    (∀ g' : Group, QG.group g' ∈ s → Group.eq g' g = false)
      ∧ s'.Perm (QG.group g :: s) := by
  simp only [QuestionGroupList.add] at h
  split at h
  · exact absurd h (by simp)
  · next hguard =>
    have hguard' := Bool.eq_false_iff.mpr hguard
    refine ⟨?_, ?_⟩
    · intro g' hg'
      have := any_false_forall hguard' (QG.group g') hg'
      simpa [QG.isGroup] using this
    · split at h
      · injection h with h1 h2
        rw [← h2]
        exact List.perm_append_singleton _ _
      · split at h
        · exact absurd h (by simp)
        · next i0 hbound =>
          injection h with h1 h2
          rw [← h2]
          apply List.perm_insertIdx
          simp only [decide_eq_true_eq, Bool.or_eq_true, not_or, not_lt] at hbound
          exact hbound.2

/-- Characterization of a successful entry-list add. -/
theorem questionList_add_ok (qs : List Question) (q : Question) (i : Option Nat)
    (qs' : List Question) (h : QuestionList.add qs q i = (.ok (), qs')) :
    (∀ q' ∈ qs, Question.eq q' q = false) ∧ qs'.Perm (q :: qs) := by
  simp only [QuestionList.add] at h
  split at h
  · exact absurd h (by simp)
  · next hguard =>
    have hguard' := Bool.eq_false_iff.mpr hguard
    refine ⟨any_false_forall hguard', ?_⟩
    split at h
    · injection h with h1 h2
      rw [← h2]
      exact List.perm_append_singleton _ _
    · split at h
      · exact absurd h (by simp)
      · next i0 hbound =>
        injection h with h1 h2
        rw [← h2]
        apply List.perm_insertIdx
        simp only [decide_eq_true_eq, Bool.or_eq_true, not_or, not_lt] at hbound
        exact hbound.2

/-- A successful entry-list add preserves entry distinctness. -/
theorem questionList_add_distinct (qs : List Question) (q : Question)
    (i : Option Nat) (qs' : List Question) (hD : DistinctQ qs)
    (h : QuestionList.add qs q i = (.ok (), qs')) : DistinctQ qs' := by
  obtain ⟨hall, hperm⟩ := questionList_add_ok qs q i qs' h
  unfold DistinctQ
  rw [hperm.pairwise_iff fun hx => question_eq_false_symm hx]
  exact List.pairwise_cons.mpr ⟨fun b hb => question_eq_false_symm (hall b hb), hD⟩

/-- Replacing the entry list of the container at a valid index preserves
the weakened invariant, provided the new entry list is itself distinct. -/
theorem set_group_preserves (s1 : List QG) (t : Nat) (g : Group)
    (qs' : List Question) (hI : SameKindDistinct s1)
    (hg : s1[t]? = some (.group g)) (hD : DistinctQ qs') :
    SameKindDistinct (s1.set t (.group ⟨g.name, g.variable_name, qs'⟩)) := by
  have hsplit := list_eq_take_cons_drop hg
  have hset := set_eq_take_cons_drop (b := QG.group ⟨g.name, g.variable_name, qs'⟩) hg
  rw [hset]
  constructor
  · have hP : (s1.take t ++ QG.group g :: s1.drop (t + 1)).Pairwise qgDistinct :=
      hsplit ▸ hI.1
    rw [List.pairwise_append] at hP ⊢
    obtain ⟨h1, h2, h3⟩ := hP
    refine ⟨h1, ?_, ?_⟩
    · rw [List.pairwise_cons] at h2 ⊢
      refine ⟨?_, h2.2⟩
      intro e he
      rw [qgDistinct_group_congr_left]
      exact h2.1 e he
    · intro a ha b hb
      rcases List.mem_cons.mp hb with rfl | hb'
      · rw [qgDistinct_group_congr]
        exact h3 a ha (QG.group g) (List.mem_cons_self _ _)
      · exact h3 a ha b (List.mem_cons_of_mem _ hb')
  · intro g' hg'
    rcases List.mem_append.mp hg' with hmem | hmem
    · exact hI.2 g' (by rw [hsplit]; exact List.mem_append_left _ hmem)
    · rcases List.mem_cons.mp hmem with heq | hmem'
      · injection heq with heq'
        rw [heq']
        exact hD
      · exact hI.2 g'
          (by rw [hsplit]; exact List.mem_append_right _ (List.mem_cons_of_mem _ hmem'))

/-- Characterization of a successful add_question_to_group. -/
theorem add_question_to_group_ok (s : List QG) (q : Question) (gi : Nat)
    (ig : Option Nat) (s' : List QG)
    (h : QuestionGroupList.add_question_to_group s q gi ig = (.ok (), s')) :
    ∃ g : Group, s[gi]? = some (.group g) ∧
      ∃ qs', QuestionList.add g.questions q ig = (.ok (), qs') ∧
        s' = s.set gi (.group ⟨g.name, g.variable_name, qs'⟩) := by
  simp only [QuestionGroupList.add_question_to_group] at h
  split at h
  · exact absurd h (by simp)
  · exact absurd h (by simp)
  · next g hgi =>
    split at h
    · exact absurd h (by simp)
    · next val qs' hadd =>
      injection h with h1 h2
      exact ⟨g, hgi, qs', hadd, h2.symm⟩

/-- Characterization of a successful move_question_to_group: the popped
question, the group found at the shifted index of the erased list, and the
rewritten result. -/
theorem move_question_to_group_ok (s : List QG) (qi gi : Nat)
    (pos : Option Nat) (s' : List QG)
    (h : QuestionGroupList.move_question_to_group s qi gi pos = (.ok (), s')) :
    ∃ (q : Question) (g1 : Group) (qs' : List Question),
      s[qi]? = some (.question q)
      ∧ (s.eraseIdx qi)[if qi < gi then gi - 1 else gi]? = some (.group g1)
      ∧ QuestionList.add g1.questions q pos = (.ok (), qs')
      ∧ s' = (s.eraseIdx qi).set (if qi < gi then gi - 1 else gi)
          (.group ⟨g1.name, g1.variable_name, qs'⟩) := by
  simp only [QuestionGroupList.move_question_to_group, QuestionGroupList.pop] at h
  split at h
  · exact absurd h (by simp)
  · split at h
    · exact absurd h (by simp)
    · exact absurd h (by simp)
    · split at h
      · exact absurd h (by simp)
      · next hq =>
        split at h
        · exact absurd h (by simp)
        · exact absurd h (by simp)
        · next q hq' =>
          rw [hq'] at h
          simp only at h
          split at h
          · next g1 hg1 =>
            split at h
            · exact absurd h (by simp)
            · next val qs' hadd =>
              injection h with h1 h2
              exact ⟨q, g1, qs', hq', hg1, hadd, h2.symm⟩
          · exact absurd h (by simp)

/-- Membership from an index lookup. -/
theorem mem_of_getElem? {α : Type} {l : List α} {i : Nat} {a : α}
    (h : l[i]? = some a) : a ∈ l := by
  obtain ⟨hi, hget⟩ := List.getElem?_eq_some_iff.mp h
  exact hget ▸ List.getElem_mem hi

/-- A successful add preserves the weakened invariant I1′ (for a group
value, provided the added group's own entries are distinct — the source
never checks them). -/
theorem add_preserves_invariant (s : List QG) (v : QG) (i : Option Nat)
    (s' : List QG) (hI : SameKindDistinct s)
    (hgq : ∀ g : Group, v = .group g → DistinctQ g.questions)
    (h : QuestionGroupList.add s v i = (.ok (), s')) : SameKindDistinct s' := by
  cases v with
  | question q =>
    obtain ⟨hall, hperm⟩ := add_question_ok s q i s' h
    rw [SameKindDistinct_perm hperm]
    constructor
    · rw [List.pairwise_cons]
      refine ⟨?_, hI.1⟩
      intro e he
      cases e with
      | question q' =>
        show Question.eq q q' = false
        exact question_eq_false_symm (hall q' he)
      | group g => trivial
    · intro g hgmem
      rcases List.mem_cons.mp hgmem with heq | hmem
      · exact absurd heq (by simp)
      · exact hI.2 g hmem
  | group g =>
    obtain ⟨hall, hperm⟩ := add_group_ok s g i s' h
    rw [SameKindDistinct_perm hperm]
    constructor
    · rw [List.pairwise_cons]
      refine ⟨?_, hI.1⟩
      intro e he
      cases e with
      | question q' => trivial
      | group g' =>
        show Group.eq g g' = false
        exact group_eq_false_symm (hall g' he)
    · intro g' hgmem
      rcases List.mem_cons.mp hgmem with heq | hmem
      · injection heq with heq'
        rw [heq']
        exact hgq g rfl
      · exact hI.2 g' hmem

/-- A successful add_question_to_group preserves the weakened invariant. -/
theorem add_question_to_group_preserves (s : List QG) (q : Question) (gi : Nat)
    (ig : Option Nat) (s' : List QG) (hI : SameKindDistinct s)
    (h : QuestionGroupList.add_question_to_group s q gi ig = (.ok (), s')) :
    SameKindDistinct s' := by
  obtain ⟨g, hgi, qs', hadd, rfl⟩ := add_question_to_group_ok s q gi ig s' h
  exact set_group_preserves s gi g qs' hI hgi
    (questionList_add_distinct _ _ _ _ (hI.2 g (mem_of_getElem? hgi)) hadd)

/-- A successful move_question_to_group preserves the weakened invariant. -/
theorem move_question_to_group_preserves (s : List QG) (qi gi : Nat)
    (pos : Option Nat) (s' : List QG) (hI : SameKindDistinct s)
    (h : QuestionGroupList.move_question_to_group s qi gi pos = (.ok (), s')) :
    SameKindDistinct s' := by
  obtain ⟨q, g1, qs', hq, hg1, hadd, rfl⟩ := move_question_to_group_ok s qi gi pos s' h
  have hIs1 : SameKindDistinct (s.eraseIdx qi) :=
    ⟨List.Pairwise.sublist (List.eraseIdx_sublist s qi) hI.1,
     fun g hg => hI.2 g ((List.eraseIdx_sublist s qi).subset hg)⟩
  exact set_group_preserves _ _ g1 qs' hIs1 hg1
    (questionList_add_distinct _ _ _ _ (hIs1.2 g1 (mem_of_getElem? hg1)) hadd)

/-- Replacing one occurrence in a duplicate-free list by a value not in
the list keeps it duplicate-free. -/
theorem nodup_replace {u v : List String} {a b : String}
    (h : (u ++ a :: v).Nodup) (hb : b ∉ u ++ a :: v) : (u ++ b :: v).Nodup := by
  rw [List.nodup_middle] at h ⊢
  rw [List.nodup_cons] at h ⊢
  refine ⟨?_, h.2⟩
  intro hmem
  apply hb
  rcases List.mem_append.mp hmem with h1 | h1
  · exact List.mem_append_left _ h1
  · exact List.mem_append_right _ (List.mem_cons_of_mem _ h1)

/-- Variable names of an appended collection. -/
theorem allVarNames_append (x y : List QG) :
    allVarNames (x ++ y) = allVarNames x ++ allVarNames y := by
  unfold allVarNames
  rw [List.map_append, List.flatten_append]

/-- Variable names of a cons. -/
theorem allVarNames_cons (e : QG) (x : List QG) :
    allVarNames (e :: x) = elemVarNames e ++ allVarNames x := by
  unfold allVarNames
  rw [List.map_cons, List.flatten_cons]

/-- Membership in the collected variable names. -/
theorem mem_allVarNames {vn : String} {s : List QG} :
    vn ∈ allVarNames s ↔ ∃ e ∈ s, vn ∈ elemVarNames e := by
  unfold allVarNames
  rw [List.mem_flatten]
  constructor
  · rintro ⟨l, hl, hvn⟩
    rw [List.mem_map] at hl
    obtain ⟨e, he, rfl⟩ := hl
    exact ⟨e, he, hvn⟩
  · rintro ⟨e, he, hvn⟩
    exact ⟨elemVarNames e, List.mem_map_of_mem _ he, hvn⟩

/-- A negative has_element answer means the variable name occurs nowhere in
the collection. -/
theorem has_element_false_not_mem {s : List QG} {vn : String}
    (h : QuestionGroupList.has_element s vn = false) : vn ∉ allVarNames s := by
  intro hmem
  rw [mem_allVarNames] at hmem
  obtain ⟨e, he, hvn⟩ := hmem
  have hfe := any_false_forall h e he
  cases e with
  | question q =>
    simp only [elemVarNames, List.mem_singleton] at hvn
    simp only [beq_eq_false_iff_ne, ne_eq] at hfe
    exact hfe hvn.symm
  | group g =>
    simp only [elemVarNames, List.mem_cons, List.mem_map] at hvn
    simp only [Bool.or_eq_false_iff, beq_eq_false_iff_ne, ne_eq] at hfe
    rcases hvn with hvn | ⟨q, hq, hvn⟩
    · exact hfe.1 hvn.symm
    · have := any_false_forall hfe.2 q hq
      simp only [beq_eq_false_iff_ne, ne_eq] at this
      exact this hvn

/-- A successful update_question preserves global key distinctness: the
key is changed only after has_element confirmed it occurs nowhere. -/
theorem update_question_preserves_keys (s : List QG) (qq : Question)
    (nn nvn : String) (nv : Option Validator) (s' : List QG)
    (hK : KeyDistinct s)
    (h : QuestionGroupList.update_question s qq nn nvn nv = (.ok (), s')) :
    KeyDistinct s' := by
  unfold KeyDistinct at hK ⊢
  simp only [QuestionGroupList.update_question] at h
  split at h
  · exact absurd h (by simp)
  · -- nested question: the source raises TypeError before any mutation
    exact absurd h (by simp)
  · -- top-level element
    next idx hfind =>
    split at h
    · -- question
      next q0 hidx =>
      have hs := list_eq_take_cons_drop hidx
      split at h
      · next hne =>
        split at h
        · exact absurd h (by simp)
        · next hhas =>
          split at h
          · exact absurd h (by simp)
          · injection h with h1 h2
            subst h2
            have hfresh : nvn ∉ allVarNames s :=
              has_element_false_not_mem (Bool.eq_false_iff.mpr hhas)
            have h1eq : allVarNames s =
                allVarNames (s.take idx) ++ q0.variable_name ::
                  allVarNames (s.drop (idx + 1)) := by
              conv_lhs => rw [hs]
              simp [allVarNames_append, allVarNames_cons, elemVarNames]
            have h2eq : allVarNames (s.set idx (.question ⟨nn, nvn, nv⟩)) =
                allVarNames (s.take idx) ++ nvn ::
                  allVarNames (s.drop (idx + 1)) := by
              rw [set_eq_take_cons_drop hidx]
              simp [allVarNames_append, allVarNames_cons, elemVarNames]
            rw [h2eq]
            rw [h1eq] at hK hfresh
            exact nodup_replace hK hfresh
      · next hne =>
        injection h with h1 h2
        subst h2
        have h2eq : allVarNames (s.set idx (.question ⟨nn, q0.variable_name, nv⟩))
            = allVarNames s := by
          conv_rhs => rw [hs]
          rw [set_eq_take_cons_drop hidx]
          simp [allVarNames_append, allVarNames_cons, elemVarNames]
        rw [h2eq]
        exact hK
    · -- group rename
      next g0 hidx =>
      have hs := list_eq_take_cons_drop hidx
      split at h
      · next hne =>
        split at h
        · exact absurd h (by simp)
        · next hhas =>
          split at h
          · exact absurd h (by simp)
          · injection h with h1 h2
            subst h2
            have hfresh : nvn ∉ allVarNames s :=
              has_element_false_not_mem (Bool.eq_false_iff.mpr hhas)
            have h1eq : allVarNames s =
                allVarNames (s.take idx) ++ g0.variable_name ::
                  (g0.questions.map Question.variable_name
                    ++ allVarNames (s.drop (idx + 1))) := by
              conv_lhs => rw [hs]
              simp [allVarNames_append, allVarNames_cons, elemVarNames,
                List.append_assoc]
            have h2eq : allVarNames (s.set idx (.group ⟨nn, nvn, g0.questions⟩)) =
                allVarNames (s.take idx) ++ nvn ::
                  (g0.questions.map Question.variable_name
                    ++ allVarNames (s.drop (idx + 1))) := by
              rw [set_eq_take_cons_drop hidx]
              simp [allVarNames_append, allVarNames_cons, elemVarNames,
                List.append_assoc]
            rw [h2eq]
            rw [h1eq] at hK hfresh
            exact nodup_replace hK hfresh
      · next hne =>
        injection h with h1 h2
        subst h2
        have h2eq : allVarNames (s.set idx (.group ⟨nn, g0.variable_name, g0.questions⟩))
            = allVarNames s := by
          conv_rhs => rw [hs]
          rw [set_eq_take_cons_drop hidx]
          simp [allVarNames_append, allVarNames_cons, elemVarNames]
        rw [h2eq]
        exact hK
    · exact absurd h (by simp)

/-- C5 amended: the inserting operations enforce uniqueness only among
same-kind same-level siblings, so they preserve the weakened invariant I1′
(top-level questions pairwise distinct by name-or-key, top-level groups
pairwise distinct, and every group's entries pairwise distinct — for add
of a group, provided the added group's own entries are distinct, which the
source does not check); cross-level and cross-kind key collisions are not
rejected (see the counterexample).  update_question preserves global key
distinctness: for a top-level target it checks the new key against every
element (top-level and nested) before a key change, and for a nested
target it always raises TypeError (the group is not subscriptable) before
mutating anything. -/
theorem claim_C5_amended :
    (∀ (s : List QG) (v : QG) (i : Option Nat) (s' : List QG),
        SameKindDistinct s →
        (∀ g : Group, v = .group g → DistinctQ g.questions) →
        QuestionGroupList.add s v i = (.ok (), s') → SameKindDistinct s')
  ∧ (∀ (s : List QG) (q : Question) (gi : Nat) (ig : Option Nat) (s' : List QG),
        SameKindDistinct s →
        QuestionGroupList.add_question_to_group s q gi ig = (.ok (), s') →
        SameKindDistinct s')
  ∧ (∀ (s : List QG) (qi gi : Nat) (pos : Option Nat) (s' : List QG),
        SameKindDistinct s →
        QuestionGroupList.move_question_to_group s qi gi pos = (.ok (), s') →
        SameKindDistinct s')
  ∧ (∀ (s : List QG) (qq : Question) (nn nvn : String) (nv : Option Validator)
        (s' : List QG),
        KeyDistinct s →
        QuestionGroupList.update_question s qq nn nvn nv = (.ok (), s') →
        KeyDistinct s')
  ∧ (∀ (s : List QG) (qq : Question) (nn nvn : String) (nv : Option Validator)
        (idx sub : Nat),
        QuestionGroupList.find_element s qq.variable_name = .ok (idx, some sub) →
        QuestionGroupList.update_question s qq nn nvn nv
          = (.error .notSubscriptable, s)) :=
  ⟨fun s v i s' hI hgq h => add_preserves_invariant s v i s' hI hgq h,
   fun s q gi ig s' hI h => add_question_to_group_preserves s q gi ig s' hI h,
   fun s qi gi pos s' hI h => move_question_to_group_preserves s qi gi pos s' hI h,
   fun s qq nn nvn nv s' hK h => update_question_preserves_keys s qq nn nvn nv s' hK h,
   fun s qq nn nvn nv idx sub hfind => by
     simp only [QuestionGroupList.update_question, hfind]⟩

/-- C5 witness: the amended theorem's add conjunct applied to a concrete
one-question collection extended by a distinct question. -/
theorem claim_C5_witness :
    (SameKindDistinct [QG.question ⟨"A", "a", none⟩]
      ∧ QuestionGroupList.add [QG.question ⟨"A", "a", none⟩]
          (.question ⟨"B", "b", none⟩) none
          = (.ok (), [QG.question ⟨"A", "a", none⟩, QG.question ⟨"B", "b", none⟩]))
  ∧ SameKindDistinct [QG.question ⟨"A", "a", none⟩, QG.question ⟨"B", "b", none⟩] := by
  have hSKD : SameKindDistinct [QG.question ⟨"A", "a", none⟩] := by
    constructor
    · simp
    · intro g hg
      exact nomatch List.mem_singleton.mp hg
  refine ⟨⟨hSKD, by decide⟩, ?_⟩
  exact claim_C5_amended.1 [QG.question ⟨"A", "a", none⟩]
    (.question ⟨"B", "b", none⟩) none
    [QG.question ⟨"A", "a", none⟩, QG.question ⟨"B", "b", none⟩]
    hSKD (fun g hg => nomatch hg) (by decide)

/-! ## Claim C10 — remove_validator cascade -/

/-- Case analysis of the cascade's clearing step. -/
theorem clearValidatorRef_cases (name : String) (q : Question) :
    (∀ v, q.validator = some v → v.name = name →
      clearValidatorRef name q = ⟨q.name, q.variable_name, none⟩)
  ∧ (∀ v, q.validator = some v → v.name ≠ name → clearValidatorRef name q = q)
  ∧ (q.validator = none → clearValidatorRef name q = q) := by
  refine ⟨?_, ?_, ?_⟩
  · intro v hv hn
    simp [clearValidatorRef, hv, hn]
  · intro v hv hn
    simp [clearValidatorRef, hv, hn]
  · intro hv
    simp [clearValidatorRef, hv]

/-- C10: after a successful registry removal of a tag name, the controller
walks the entire collection — top-level questions and the questions of
every group — and clears to none the validator reference of exactly those
questions whose validator name equals the removed name, leaving every
other question (and every group's name, key and entry order) unchanged. -/
theorem claim_C10_remove_validator_cascade (cfg : ConfigController)
    (name : String) (cfg' : ConfigController)
    (h : cfg.remove_validator name = (.ok (), cfg')) :
    cfg'.questions_and_groups.length = cfg.questions_and_groups.length
  ∧ (∀ (i : Nat) (q : Question),
      cfg.questions_and_groups[i]? = some (.question q) →
      (∀ v, q.validator = some v → v.name = name →
        cfg'.questions_and_groups[i]? = some (.question ⟨q.name, q.variable_name, none⟩))
      ∧ (∀ v, q.validator = some v → v.name ≠ name →
        cfg'.questions_and_groups[i]? = some (.question q))
      ∧ (q.validator = none →
        cfg'.questions_and_groups[i]? = some (.question q)))
  ∧ (∀ (i : Nat) (g : Group),
      cfg.questions_and_groups[i]? = some (.group g) →
      ∃ g', cfg'.questions_and_groups[i]? = some (.group g')
        ∧ g'.name = g.name ∧ g'.variable_name = g.variable_name
        ∧ g'.questions.length = g.questions.length
        ∧ ∀ (j : Nat) (q : Question), g.questions[j]? = some q →
            (∀ v, q.validator = some v → v.name = name →
              g'.questions[j]? = some ⟨q.name, q.variable_name, none⟩)
          ∧ (∀ v, q.validator = some v → v.name ≠ name →
              g'.questions[j]? = some q)
          ∧ (q.validator = none → g'.questions[j]? = some q)) := by
  simp only [ConfigController.remove_validator] at h
  split at h
  · exact absurd h (by simp)
  · next vl hrem =>
    injection h with h1 h2
    subst h2
    refine ⟨by simp, ?_, ?_⟩
    · intro i q hq
      have hmap : (cfg.questions_and_groups.map fun e =>
          match e with
          | .question q => QG.question (clearValidatorRef name q)
          | .group g =>
            QG.group ⟨g.name, g.variable_name, g.questions.map (clearValidatorRef name)⟩)[i]?
          = some (QG.question (clearValidatorRef name q)) := by
        rw [List.getElem?_map, hq, Option.map_some']
      refine ⟨?_, ?_, ?_⟩
      · intro v hv hn
        rw [(clearValidatorRef_cases name q).1 v hv hn] at hmap
        exact hmap
      · intro v hv hn
        rw [(clearValidatorRef_cases name q).2.1 v hv hn] at hmap
        exact hmap
      · intro hv
        rw [(clearValidatorRef_cases name q).2.2 hv] at hmap
        exact hmap
    · intro i g hg
      have hmap : (cfg.questions_and_groups.map fun e =>
          match e with
          | .question q => QG.question (clearValidatorRef name q)
          | .group g =>
            QG.group ⟨g.name, g.variable_name, g.questions.map (clearValidatorRef name)⟩)[i]?
          = some (QG.group ⟨g.name, g.variable_name,
              g.questions.map (clearValidatorRef name)⟩) := by
        rw [List.getElem?_map, hg, Option.map_some']
      refine ⟨⟨g.name, g.variable_name, g.questions.map (clearValidatorRef name)⟩,
        hmap, rfl, rfl, by simp, ?_⟩
      intro j q hq
      have hmapq : (g.questions.map (clearValidatorRef name))[j]?
          = some (clearValidatorRef name q) := by
        rw [List.getElem?_map, hq, Option.map_some']
      refine ⟨?_, ?_, ?_⟩
      · intro v hv hn
        rw [(clearValidatorRef_cases name q).1 v hv hn] at hmapq
        exact hmapq
      · intro v hv hn
        rw [(clearValidatorRef_cases name q).2.1 v hv hn] at hmapq
        exact hmapq
      · intro hv
        rw [(clearValidatorRef_cases name q).2.2 hv] at hmapq
        exact hmapq

/-- Concrete controller used by the C10 witness: the custom tag foo is
attached to one top-level question and one nested question. -/
def cfgC10 : ConfigController :=
  ⟨[QG.question ⟨"A", "a", some (.custom "foo")⟩,
    QG.group ⟨"G", "g", [⟨"B", "b", some (.custom "foo")⟩,
                         ⟨"C", "c", some (.custom "bar")⟩]⟩],
   ["integer_validator", "float_validator", "text_validator",
    "date_validator", "email_validator", "phone_validator", "foo"]⟩

/-- Controller state after the C10 witness removal. -/
def cfgC10' : ConfigController :=
  ⟨[QG.question ⟨"A", "a", none⟩,
    QG.group ⟨"G", "g", [⟨"B", "b", none⟩, ⟨"C", "c", some (.custom "bar")⟩]⟩],
   ["integer_validator", "float_validator", "text_validator",
    "date_validator", "email_validator", "phone_validator"]⟩

/-- C10 witness: removing the custom tag foo from cfgC10 succeeds, and the
cascade theorem yields the cleared top-level question. -/
theorem claim_C10_witness :
    ConfigController.remove_validator cfgC10 "foo" = (.ok (), cfgC10')
  ∧ cfgC10'.questions_and_groups[0]? = some (.question ⟨"A", "a", none⟩) :=
  ⟨by decide,
    ((claim_C10_remove_validator_cascade cfgC10 "foo" cfgC10' (by decide)).2.1 0
      ⟨"A", "a", some (.custom "foo")⟩ (by decide)).1 (.custom "foo") rfl rfl⟩

/-! ## Claim C8 — serialization roundtrip -/

/-- C8 counterexample: a collection whose only entry has the empty display
name serializes fine, but from_dict rejects the result (the falsy-name
check in Question.from_dict raises), so the roundtrip does not succeed for
arbitrary display names. -/
theorem claim_C8_counterexample :
    QuestionGroupList.from_dict
        (QuestionGroupList.to_dict [QG.question ⟨"", "q", none⟩])
      = .error .parseError := by
  decide

/-- Spec-side condition on a tag for the roundtrip: custom kinds must not
carry an empty name or the name date_validator (names a registry cannot
produce anyway, since built-in names are reserved there and the empty name
fails identifier validation). -/
def vcompat : Validator → Prop
  | .custom n => n ≠ "" ∧ n ≠ "date_validator"
  | _ => True

/-- Spec-side correspondence of a deserialized question with its original:
name and key equal and the tag name preserved (the tag's kind may
degenerate — email and phone come back as plain named kinds). -/
def QRT (a b : Question) : Prop :=
  b.name = a.name ∧ b.variable_name = a.variable_name
    ∧ b.validator.map Validator.name = a.validator.map Validator.name

/-- Spec-side correspondence of a deserialized group with its original. -/
def GRT (a b : Group) : Prop :=
  b.name = a.name ∧ b.variable_name = a.variable_name
    ∧ List.Forall₂ QRT a.questions b.questions

/-- Spec-side correspondence of collection elements: kinds match and the
corresponding payloads correspond. -/
def ERT : QG → QG → Prop
  | .question a, .question b => QRT a b
  | .group a, .group b => GRT a b
  | _, _ => False

/-- Conditions under which a question survives the roundtrip: nonempty
display name, a key the identifier validator accepts, and a roundtrippable
tag. -/
def QOk (q : Question) : Prop :=
  q.name ≠ "" ∧ is_valid_python_variable_name q.variable_name = .ok true
    ∧ ∀ v, q.validator = some v → vcompat v

/-- Conditions under which an element survives the roundtrip. -/
def EOk : QG → Prop
  | .question q => QOk q
  | .group g => g.name ≠ "" ∧ g.variable_name ≠ "" ∧ ∀ q ∈ g.questions, QOk q

/-- The factory reconstructs from a serialized validator a validator with
the same name. -/
theorem create_to_dict (v : Validator) (hv : vcompat v) :
    ∃ v', ValidatorFactory.create (Validator.to_dict v) = .ok v'
      ∧ v'.name = v.name := by
  cases v with
  | integer a b => exact ⟨.integer a b, by simp [ValidatorFactory.create,
      Validator.to_dict, truthyS], rfl⟩
  | float a b => exact ⟨.float a b, by simp [ValidatorFactory.create,
      Validator.to_dict, truthyS], rfl⟩
  | text a b => exact ⟨.text a b, by simp [ValidatorFactory.create,
      Validator.to_dict, truthyS], rfl⟩
  | date fmt => exact ⟨.date fmt, by cases fmt <;> rfl, rfl⟩
  | email => exact ⟨.custom "email_validator", by decide, rfl⟩
  | phone => exact ⟨.custom "phone_validator", by decide, rfl⟩
  | custom n =>
    obtain ⟨hne, hnd⟩ := hv
    by_cases h1 : n = "integer_validator"
    · subst h1
      exact ⟨.integer none none, by decide, rfl⟩
    by_cases h2 : n = "float_validator"
    · subst h2
      exact ⟨.float none none, by decide, rfl⟩
    by_cases h3 : n = "text_validator"
    · subst h3
      exact ⟨.text none none, by decide, rfl⟩
    refine ⟨.custom n, ?_, rfl⟩
    simp [ValidatorFactory.create, Validator.to_dict, truthyS, hne, h1, h2, h3, hnd]

/-- A serialized validator dict is never the empty (falsy) dict: its name
key is always present. -/
theorem to_dict_ne_empty (v : Validator) : Validator.to_dict v ≠ emptyVDict := by
  cases v <;> simp [Validator.to_dict, emptyVDict]

/-- A string accepted by the identifier validator is nonempty. -/
theorem valid_ident_ne_empty {vn : String}
    (h : is_valid_python_variable_name vn = .ok true) : vn ≠ "" := by
  intro he
  subst he
  exact absurd h (by decide)

/-- Roundtrip of a single question. -/
theorem question_from_to (q : Question) (hq : QOk q) :
    ∃ q', Question.from_dict (Question.to_dict q) = .ok q' ∧ QRT q q' := by
  obtain ⟨hn, hvn, hv⟩ := hq
  have hvne := valid_ident_ne_empty hvn
  cases hqv : q.validator with
  | none =>
    refine ⟨⟨q.name, q.variable_name, none⟩, ?_, rfl, rfl, by simp [hqv]⟩
    simp only [Question.from_dict, Question.to_dict, hqv, Option.map_none']
    simp [truthyS, hn, hvn, hvne]
  | some v =>
    obtain ⟨v', hcreate, hname⟩ := create_to_dict v (hv v hqv)
    refine ⟨⟨q.name, q.variable_name, some v'⟩, ?_, rfl, rfl,
      by simp [hqv, hname]⟩
    simp only [Question.from_dict, Question.to_dict, hqv, Option.map_some']
    rw [if_neg (to_dict_ne_empty v), hcreate]
    simp [truthyS, hn, hvn, hvne]

/-- Roundtrip of a list of questions through mapM. -/
theorem questions_from_to (qs : List Question) (h : ∀ q ∈ qs, QOk q) :
    ∃ qs', (qs.map Question.to_dict).mapM Question.from_dict = .ok qs'
      ∧ List.Forall₂ QRT qs qs' := by
  induction qs with
  | nil => exact ⟨[], rfl, .nil⟩
  | cons q rest ih =>
    obtain ⟨q', hq', hrt⟩ := question_from_to q (h q (List.mem_cons_self _ _))
    obtain ⟨qs', hqs', hrts⟩ := ih fun x hx => h x (List.mem_cons_of_mem _ hx)
    refine ⟨q' :: qs', ?_, .cons hrt hrts⟩
    rw [List.map_cons, List.mapM_cons, hq', hqs']
    rfl

/-- Roundtrip of a single group. -/
theorem group_from_to (g : Group) (hn : g.name ≠ "") (hvn : g.variable_name ≠ "")
    (h : ∀ q ∈ g.questions, QOk q) :
    ∃ g', Group.from_dict (Group.to_dict g) = .ok g' ∧ GRT g g' := by
  obtain ⟨qs', hqs', hrts⟩ := questions_from_to g.questions h
  refine ⟨⟨g.name, g.variable_name, qs'⟩, ?_, rfl, rfl, hrts⟩
  simp only [Group.from_dict, Group.to_dict]
  rw [hqs']
  simp [truthyS, hn, hvn]

/-- C8 amended: for every collection of entries and non-nested containers
whose display names are nonempty, whose keys pass the identifier validator
(for groups: are nonempty — group deserialization does not re-validate),
and whose custom tags do not collide with the reserved serialized names,
from_dict after to_dict succeeds and reproduces an equal ordered
structure: same length and order, corresponding elements of the same kind
with equal names, equal keys and equal tag names (entry lists of
containers correspond pointwise the same way). -/
theorem claim_C8_amended (s : List QG) (h : ∀ e ∈ s, EOk e) :
    ∃ s', QuestionGroupList.from_dict (QuestionGroupList.to_dict s) = .ok s'
      ∧ List.Forall₂ ERT s s' := by
  induction s with
  | nil => exact ⟨[], rfl, .nil⟩
  | cons e rest ih =>
    obtain ⟨s', hs', hrts⟩ := ih fun x hx => h x (List.mem_cons_of_mem _ hx)
    simp only [QuestionGroupList.from_dict, QuestionGroupList.to_dict] at hs' ⊢
    cases e with
    | question q =>
      obtain ⟨q', hq', hrt⟩ := question_from_to q (h _ (List.mem_cons_self _ _))
      refine ⟨.question q' :: s', ?_, .cons hrt hrts⟩
      have hitem : QuestionGroupList.fromDictItem (Question.to_dict q)
          = .ok (QG.question q') := by
        unfold QuestionGroupList.fromDictItem
        have hc : ¬ ((Question.to_dict q).questions.isSome = true) := by
          rw [show (Question.to_dict q).questions = none from rfl]
          simp
        rw [if_neg hc, hq']
      rw [List.map_cons, List.mapM_cons]
      rw [show (match QG.question q with
            | QG.question q => q.to_dict
            | QG.group g => g.to_dict) = Question.to_dict q from rfl]
      rw [hitem, hs']
      rfl
    | group g =>
      obtain ⟨hn, hvn, hqs⟩ := h _ (List.mem_cons_self _ _)
      obtain ⟨g', hg', hrt⟩ := group_from_to g hn hvn hqs
      refine ⟨.group g' :: s', ?_, .cons hrt hrts⟩
      have hitem : QuestionGroupList.fromDictItem (Group.to_dict g)
          = .ok (QG.group g') := by
        unfold QuestionGroupList.fromDictItem
        have hc : (Group.to_dict g).questions.isSome = true := by
          rw [show (Group.to_dict g).questions
              = some (g.questions.map Question.to_dict) from rfl]
          simp
        rw [if_pos hc, hg']
      rw [List.map_cons, List.mapM_cons]
      rw [show (match QG.group g with
            | QG.question q => q.to_dict
            | QG.group g => g.to_dict) = Group.to_dict g from rfl]
      rw [hitem, hs']
      rfl

/-- C8 witness: the amended theorem applied to a two-element collection
with an email-tagged entry and a container holding an integer-tagged
entry. -/
theorem claim_C8_witness :
    (∀ e ∈ [QG.question ⟨"A", "a", some .email⟩,
            QG.group ⟨"G", "g", [⟨"B", "b", some (.integer none none)⟩]⟩], EOk e)
  ∧ ∃ s', QuestionGroupList.from_dict (QuestionGroupList.to_dict
        [QG.question ⟨"A", "a", some .email⟩,
         QG.group ⟨"G", "g", [⟨"B", "b", some (.integer none none)⟩]⟩]) = .ok s'
      ∧ List.Forall₂ ERT
          [QG.question ⟨"A", "a", some .email⟩,
           QG.group ⟨"G", "g", [⟨"B", "b", some (.integer none none)⟩]⟩] s' := by
  have hok : ∀ e ∈ [QG.question ⟨"A", "a", some .email⟩,
      QG.group ⟨"G", "g", [⟨"B", "b", some (.integer none none)⟩]⟩], EOk e := by
    intro e he
    rcases List.mem_cons.mp he with rfl | he'
    · exact ⟨by decide, by decide, fun v hv => by injection hv with hv'; rw [← hv']; trivial⟩
    · rcases List.mem_cons.mp he' with rfl | he''
      · refine ⟨by decide, by decide, ?_⟩
        intro q hq
        rcases List.mem_singleton.mp hq with rfl
        exact ⟨by decide, by decide, fun v hv => by injection hv with hv'; rw [← hv']; trivial⟩
      · exact absurd he'' (List.not_mem_nil _)
  exact ⟨hok, claim_C8_amended _ hok⟩

end Tebogen
